import Mathlib

/-!
Verification development for the b-roll-highlights annotation-geometry and
animation engine.  The definitions below are shallow embeddings of the
TypeScript source (coordinates and timing values are modelled as rationals,
frame counters as integers/naturals); theorems establish or refute the
properties claimed in the specification.
-/

namespace BRoll

/-- OCR word bounding box, from `src/types` (`WordBox`): text with a pixel
rectangle in source-image space plus a confidence value. -/
structure WordBox where
  text : String
  left : ℚ
  top : ℚ
  width : ℚ
  height : ℚ
  confidence : ℚ
  deriving DecidableEq, Repr

/-- `word.left + word.width`, the `wordRight` of the source. -/
def WordBox.right (w : WordBox) : ℚ := w.left + w.width

/-- `word.top + word.height`, the `wordBottom` of the source. -/
def WordBox.bottom (w : WordBox) : ℚ := w.top + w.height

/-- Axis-aligned span rectangle (`HighlightSpan`/`CircleSpan`/`UnderlineSpan`
in the source components). -/
structure Span where
  left : ℚ
  top : ℚ
  right : ℚ
  bottom : ℚ
  deriving DecidableEq, Repr

/-- Marking mode enum from `src/types`. -/
inductive MarkingMode where
  | highlight | circle | underline | unblur | zoom | lowerThird
  deriving DecidableEq, Repr

/-- User-drawn zoom rectangle in normalized image coordinates
(`ZoomBox` in `src/types`). -/
structure ZoomBox where
  x : ℚ
  y : ℚ
  width : ℚ
  height : ℚ
  deriving DecidableEq, Repr

/-- Sum of `word.text.length` over a selection — the
`selectedWords.reduce((sum, word) => sum + word.text.length, 0)` of
`Root.tsx` and `Composition.tsx`. -/
def totalCharacters (ws : List WordBox) : ℕ := (ws.map (·.text.length)).sum

/-- `estimateHighlightDuration` from `src/remotion/Root.tsx` (lines 16–40):
zoom mode with a zoom box returns `ceil(zoomDurationSeconds * fps)`;
an empty selection returns `fps * 2`; otherwise
`max(fps, ceil(totalCharacters / charsPerSecond * fps))`. -/
def estimateHighlightDuration (selectedWords : List WordBox) (charsPerSecond : ℚ)
    (markingMode : MarkingMode) (zoomDurationSeconds : ℚ) (zoomBox : Option ZoomBox)
    (fps : ℕ) : ℤ :=
  if markingMode = MarkingMode.zoom ∧ zoomBox.isSome then
    ⌈zoomDurationSeconds * (fps : ℚ)⌉
  else if selectedWords = [] then
    (fps : ℤ) * 2
  else
    max (fps : ℤ) ⌈((totalCharacters selectedWords : ℚ) / charsPerSecond) * (fps : ℚ)⌉

/-- `totalHighlightFrames` computed inside `HighlightComposition`
(`src/remotion/Composition.tsx` lines 363–370):
`Math.max(30, Math.ceil((totalCharacters / charsPerSecond) * FPS))` with the
constant `FPS = 30`. -/
def totalHighlightFrames (selectedWords : List WordBox) (charsPerSecond : ℚ) : ℤ :=
  max 30 ⌈((totalCharacters selectedWords : ℚ) / charsPerSecond) * (30 : ℚ)⌉

/-- JavaScript `Math.round`: round half toward positive infinity. -/
def jsRound (q : ℚ) : ℤ := ⌊q + 1 / 2⌋

/-- `leadInFrames = Math.round(leadInSeconds * FPS)` from
`Composition.tsx` line 57 (constant `FPS = 30`). -/
def leadInFramesComposition (leadInSeconds : ℚ) : ℤ := jsRound (leadInSeconds * 30)

/-- `highlightStartFrame = Math.max(30, leadInFrames)` from
`Composition.tsx` line 374. -/
def highlightStartFrame (leadInSeconds : ℚ) : ℤ :=
  max 30 (leadInFramesComposition leadInSeconds)

/-- `highlightFrame = Math.max(0, frame - highlightStartFrame)` from
`Composition.tsx` line 375. -/
def highlightFrame (frame hsf : ℤ) : ℤ := max 0 (frame - hsf)

/-! ## Zoom box aspect correction (`WordSelector`, `calculateZoomBox`) -/

/-- The normalized zoom-box height computed before any clamping
(`calculateZoomBox` line 289):
`height = width * imageAspect / videoAspect` with
`imageAspect = imageWidth / imageHeight` and `videoAspect = outW / outH`. -/
def preClampZoomHeight (imageW imageH outW outH width : ℚ) : ℚ :=
  width * (imageW / imageH) / (outW / outH)

/-- `calculateZoomBox` from the `WordSelector` component (lines 279–311):
derives an aspect-corrected normalized zoom box from a drag gesture, clamps
it into `[0,1]`, shrinks the width when the height had to be capped, and
enforces a 5% minimum width. -/
def calculateZoomBox (imageW imageH outW outH startX startY endX endY : ℚ) : ZoomBox :=
  let imageAspect := imageW / imageH
  let videoAspect := outW / outH
  let width0 := |endX - startX|
  let height0 := width0 * imageAspect / videoAspect
  let x0 := if startX ≤ endX then startX else startX - width0
  let y0 := if startY ≤ endY then startY else startY - height0
  let x1 := max 0 (min x0 (1 - width0))
  let y1 := max 0 (min y0 (1 - height0))
  let width1 := if 1 < x1 + width0 then 1 - x1 else width0
  let width2 := if 1 < y1 + height0 then (1 - y1) * videoAspect / imageAspect else width1
  -- the `height = 1 - y` assignment of the source is dead: `height` is
  -- recomputed from the final width on the last line either way
  let width3 := max (1 / 20) width2
  let height3 := width3 * imageAspect / videoAspect
  { x := x1, y := y1, width := width3, height := height3 }

/-! ## Transform composer (`Composition.tsx`) -/

/-- Enter-animation kind. -/
inductive EnterAnimation where
  | blur | fromBottom | fromTop | fromLeft | fromRight | noneE
  deriving DecidableEq, Repr

/-- Exit-animation kind. -/
inductive ExitAnimation where
  | blur | toBottom | toTop | toLeft | toRight | noneX
  deriving DecidableEq, Repr

/-- Camera-movement kind. -/
inductive CameraMovement where
  | leftRight | rightLeft | upDown | downUp | zoomIn | zoomOut | noneC
  deriving DecidableEq, Repr

/-- `Easing.out(Easing.cubic)`. -/
def easeOutCubic (t : ℚ) : ℚ := 1 - (1 - t) ^ 3

/-- `Easing.in(Easing.cubic)`. -/
def easeInCubic (t : ℚ) : ℚ := t ^ 3

/-- Linear easing (the default when no easing option is passed). -/
def easeLinear (t : ℚ) : ℚ := t

/-- Remotion `interpolate` restricted to one input segment `[a, b]` and one
output segment `[y0, y1]`: the input is clamped on the side(s) whose
`extrapolateLeft`/`extrapolateRight` option is `"clamp"`, normalized,
passed through the easing function, and mapped affinely onto the output
range.  On a non-clamped side the (eased) mapping extrapolates. -/
def interpolate1 (x a b y0 y1 : ℚ) (easing : ℚ → ℚ) (clampLeft clampRight : Bool) : ℚ :=
  let x1 := if clampLeft ∧ x < a then a else if clampRight ∧ b < x then b else x
  y0 + easing ((x1 - a) / (b - a)) * (y1 - y0)

/-- Per-frame enter/exit animation values (blur radius, translation, opacity). -/
structure EnterExitAnim where
  blur : ℚ
  tx : ℚ
  ty : ℚ
  opacity : ℚ
  deriving DecidableEq, Repr

/-- `calculateEnterAnimation` from `Composition.tsx` (lines 64–134):
`animationDuration = 30`, `slideDistance = 150`, `maxBlur = 20`; every
interpolation clamps on the right only and eases out-cubic. -/
def calculateEnterAnimation (ea : EnterAnimation) (frame : ℚ) : EnterExitAnim :=
  match ea with
  | .blur =>
      { blur := interpolate1 frame 0 30 20 0 easeOutCubic false true
        tx := 0, ty := 0, opacity := 1 }
  | .fromBottom =>
      { blur := 0, tx := 0
        ty := interpolate1 frame 0 30 150 0 easeOutCubic false true
        opacity := interpolate1 frame 0 30 0 1 easeOutCubic false true }
  | .fromTop =>
      { blur := 0, tx := 0
        ty := interpolate1 frame 0 30 (-150) 0 easeOutCubic false true
        opacity := interpolate1 frame 0 30 0 1 easeOutCubic false true }
  | .fromLeft =>
      { blur := 0
        tx := interpolate1 frame 0 30 (-150) 0 easeOutCubic false true
        ty := 0
        opacity := interpolate1 frame 0 30 0 1 easeOutCubic false true }
  | .fromRight =>
      { blur := 0
        tx := interpolate1 frame 0 30 150 0 easeOutCubic false true
        ty := 0
        opacity := interpolate1 frame 0 30 0 1 easeOutCubic false true }
  | .noneE => { blur := 0, tx := 0, ty := 0, opacity := 1 }

/-- `exitBuffer`: 15 frames for directional slide exits, otherwise 0
(`Composition.tsx` lines 140–141). -/
def exitBufferOf (xa : ExitAnimation) : ℚ :=
  if xa ≠ ExitAnimation.blur ∧ xa ≠ ExitAnimation.noneX then 15 else 0

/-- `exitEnd = durationInFrames - exitBuffer` (`Composition.tsx` line 142). -/
def exitEndOf (xa : ExitAnimation) (dur : ℚ) : ℚ := dur - exitBufferOf xa

/-- `calculateExitAnimation` from `Composition.tsx` (lines 137–212): the exit
window is `[exitEnd - 30, exitEnd]`; every interpolation clamps on the left
only and eases in-cubic — past `exitEnd` the values extrapolate. -/
def calculateExitAnimation (xa : ExitAnimation) (frame dur : ℚ) : EnterExitAnim :=
  let exitEnd := dur - exitBufferOf xa
  let exitStart := exitEnd - 30
  match xa with
  | .blur =>
      { blur := interpolate1 frame exitStart exitEnd 0 20 easeInCubic true false
        tx := 0, ty := 0, opacity := 1 }
  | .toBottom =>
      { blur := 0, tx := 0
        ty := interpolate1 frame exitStart exitEnd 0 150 easeInCubic true false
        opacity := interpolate1 frame exitStart exitEnd 1 0 easeInCubic true false }
  | .toTop =>
      { blur := 0, tx := 0
        ty := interpolate1 frame exitStart exitEnd 0 (-150) easeInCubic true false
        opacity := interpolate1 frame exitStart exitEnd 1 0 easeInCubic true false }
  | .toLeft =>
      { blur := 0
        tx := interpolate1 frame exitStart exitEnd 0 (-150) easeInCubic true false
        ty := 0
        opacity := interpolate1 frame exitStart exitEnd 1 0 easeInCubic true false }
  | .toRight =>
      { blur := 0
        tx := interpolate1 frame exitStart exitEnd 0 150 easeInCubic true false
        ty := 0
        opacity := interpolate1 frame exitStart exitEnd 1 0 easeInCubic true false }
  | .noneX => { blur := 0, tx := 0, ty := 0, opacity := 1 }

/-- Per-frame camera transform values. -/
structure CameraTransform where
  rotateX : ℚ
  rotateY : ℚ
  scale : ℚ
  deriving DecidableEq, Repr

/-- `calculateCameraTransform` from `Composition.tsx` (lines 224–310):
±7.5° rotation interpolated linearly over the whole clip, combined with a
slow zoom (`1.0 → 1.05`, or `1.0 ↔ 1.15` for the dedicated zoom modes);
all interpolations clamp on the right. -/
def calculateCameraTransform (cm : CameraMovement) (frame dur : ℚ) : CameraTransform :=
  match cm with
  | .leftRight =>
      { rotateX := 0
        rotateY := interpolate1 frame 0 dur (-(15 / 2)) (15 / 2) easeLinear false true
        scale := interpolate1 frame 0 dur 1 (21 / 20) easeLinear false true }
  | .rightLeft =>
      { rotateX := 0
        rotateY := interpolate1 frame 0 dur (15 / 2) (-(15 / 2)) easeLinear false true
        scale := interpolate1 frame 0 dur 1 (21 / 20) easeLinear false true }
  | .upDown =>
      { rotateX := interpolate1 frame 0 dur (15 / 2) (-(15 / 2)) easeLinear false true
        rotateY := 0
        scale := interpolate1 frame 0 dur 1 (21 / 20) easeLinear false true }
  | .downUp =>
      { rotateX := interpolate1 frame 0 dur (-(15 / 2)) (15 / 2) easeLinear false true
        rotateY := 0
        scale := interpolate1 frame 0 dur 1 (21 / 20) easeLinear false true }
  | .zoomIn =>
      { rotateX := 0, rotateY := 0
        scale := interpolate1 frame 0 dur 1 (23 / 20) easeLinear false true }
  | .zoomOut =>
      { rotateX := 0, rotateY := 0
        scale := interpolate1 frame 0 dur (23 / 20) 1 easeLinear false true }
  | .noneC => { rotateX := 0, rotateY := 0, scale := 1 }

/-- Smaller endpoint of the camera-scale keyframe pair for each mode. -/
def camScaleLo (cm : CameraMovement) : ℚ :=
  match cm with
  | .zoomIn => 1
  | .zoomOut => 1
  | .noneC => 1
  | _ => 1

/-- Larger endpoint of the camera-scale keyframe pair for each mode. -/
def camScaleHi (cm : CameraMovement) : ℚ :=
  match cm with
  | .zoomIn => 23 / 20
  | .zoomOut => 23 / 20
  | .noneC => 1
  | _ => 21 / 20

/-! ## Span clustering (`RoughHighlighter` and siblings)

The row/span clustering appears verbatim in `RoughHighlighter`, `SvgCircler`,
`SvgUnderliner` and `UnblurReveal`; we embed it once.  JavaScript
`Array.prototype.sort` with a numeric comparator is a stable sort; we model
it with the (stable) `List.insertionSort`. -/

/-- `Math.min(...row.map(w => w.top))` over a row of word boxes. -/
def rowTop : List WordBox → ℚ
  | [] => 0
  | [w] => w.top
  | w :: x :: ws => min w.top (rowTop (x :: ws))

/-- `Math.max(...row.map(w => w.top + w.height))` over a row of word boxes. -/
def rowBottom : List WordBox → ℚ
  | [] => 0
  | [w] => w.bottom
  | w :: x :: ws => max w.bottom (rowBottom (x :: ws))

/-- One step of row assignment: scan the existing rows in creation order and
push the word into the first row whose vertical extent it overlaps
(`word.top < rowBottom && wordBottom > rowTop`), else append a new row. -/
def placeWord (w : WordBox) : List (List WordBox) → List (List WordBox)
  | [] => [[w]]
  | r :: rs =>
      if w.top < rowBottom r ∧ rowTop r < w.bottom then (r ++ [w]) :: rs
      else r :: placeWord w rs

/-- Row assignment: fold `placeWord` over the words (already sorted by `top`). -/
def assignRows (ws : List WordBox) : List (List WordBox) :=
  ws.foldl (fun rs w => placeWord w rs) []

/-- Sort key used for the initial `wordsCopy.sort((a, b) => a.top - b.top)`. -/
def topLE (a b : WordBox) : Prop := a.top ≤ b.top

instance : DecidableRel topLE := fun a b => inferInstanceAs (Decidable (a.top ≤ b.top))

instance : IsTotal WordBox topLE := ⟨fun a b => le_total a.top b.top⟩

instance : IsTrans WordBox topLE := ⟨fun _ _ _ h h' => le_trans h h'⟩

/-- Sort key for `row.sort((a, b) => a.left - b.left)`. -/
def leftLE (a b : WordBox) : Prop := a.left ≤ b.left

instance : DecidableRel leftLE := fun a b => inferInstanceAs (Decidable (a.left ≤ b.left))

instance : IsTotal WordBox leftLE := ⟨fun a b => le_total a.left b.left⟩

instance : IsTrans WordBox leftLE := ⟨fun _ _ _ h h' => le_trans h h'⟩

/-- Sort key for `rows.sort((a, b) => min(a tops) - min(b tops))`. -/
def rowLE (a b : List WordBox) : Prop := rowTop a ≤ rowTop b

instance : DecidableRel rowLE := fun a b => inferInstanceAs (Decidable (rowTop a ≤ rowTop b))

instance : IsTotal (List WordBox) rowLE := ⟨fun a b => le_total (rowTop a) (rowTop b)⟩

instance : IsTrans (List WordBox) rowLE := ⟨fun _ _ _ h h' => le_trans h h'⟩

/-- The span consisting of a single word box. -/
def spanOfWord (w : WordBox) : Span :=
  { left := w.left, top := w.top, right := w.right, bottom := w.bottom }

/-- Extending the current span with a word: `right` is *assigned* the word's
right edge, `top`/`bottom` take min/max (source lines 127–129). -/
def extendSpan (c : Span) (w : WordBox) : Span :=
  { left := c.left, top := min c.top w.top, right := w.right
    bottom := max c.bottom w.bottom }

/-- The merge test of the source: `gap < avgHeight * 3` with
`avgHeight = (currentSpan.bottom - currentSpan.top + word.height) / 2` and
`gap = word.left - currentSpan.right`. -/
def isAdjacent (c : Span) (w : WordBox) : Prop :=
  w.left - c.right < (c.bottom - c.top + w.height) / 2 * 3

instance : ∀ c w, Decidable (isAdjacent c w) := fun _ _ =>
  inferInstanceAs (Decidable (_ < _))

/-- The span-merge walk over one row (already sorted by `left`), carrying the
current span; emits the current span whenever a word is not adjacent. -/
def mergeLoop : Span → List WordBox → List Span
  | c, [] => [c]
  | c, w :: ws =>
      if isAdjacent c w then mergeLoop (extendSpan c w) ws
      else c :: mergeLoop (spanOfWord w) ws

/-- Spans of one row: the first word starts the current span, the rest are
merged by `mergeLoop`. -/
def rowSpans : List WordBox → List Span
  | [] => []
  | w :: ws => mergeLoop (spanOfWord w) ws

/-- The clustered rows of a selection: sort words by `top`, first-fit them
into rows, sort the rows by their minimum `top`, sort each row by `left`. -/
def clusterRows (ws : List WordBox) : List (List WordBox) :=
  ((assignRows (ws.insertionSort topLE)).insertionSort rowLE).map
    (·.insertionSort leftLE)

/-- The full clustering pipeline: ordered list of spans (reading order). -/
def clusterSpans (ws : List WordBox) : List Span :=
  ((clusterRows ws).map rowSpans).flatten

/-- Spans tagged with the minimum `top` of the row that produced them;
used to state the reading-order invariant. -/
def taggedSpans (ws : List WordBox) : List (ℚ × Span) :=
  ((clusterRows ws).map (fun row => (rowSpans row).map (fun s => (rowTop row, s)))).flatten

/-- Strict (positive-area) overlap of two axis-aligned span rectangles. -/
def Span.overlapsSpan (s t : Span) : Prop :=
  max s.left t.left < min s.right t.right ∧ max s.top t.top < min s.bottom t.bottom

instance : ∀ s t, Decidable (Span.overlapsSpan s t) := fun _ _ =>
  inferInstanceAs (Decidable (_ ∧ _))

/-! ## Reveal/timing engine (`RoughHighlighter`, `SvgCircler`, `SvgUnderliner`,
`UnblurReveal`) -/

/-- Padded pixel width of one span in `RoughHighlighter`:
`w + paddingX * 2` with `w = (right - left) * scaleFactor`,
`paddingX = h * PADDING_X_RATIO`, `h = (bottom - top) * scaleFactor`,
`PADDING_X_RATIO = 0.25`. -/
def spanPixelWidth (sf : ℚ) (s : Span) : ℚ :=
  (s.right - s.left) * sf + (s.bottom - s.top) * sf * (1 / 4) * 2

/-- `totalPixelWidth`: cumulative padded width of all spans
(`RoughHighlighter` lines 152–158). -/
def totalPixelWidth (sf : ℚ) (spans : List Span) : ℚ :=
  (spans.map (spanPixelWidth sf)).sum

/-- `progress = Math.min(1, animationFrame / totalHighlightFrames)`
(`RoughHighlighter` line 161). -/
def revealProgress (animationFrame thf : ℤ) : ℚ :=
  min 1 ((animationFrame : ℚ) / (thf : ℚ))

/-- `distanceTraveled = progress * totalPixelWidth`
(`RoughHighlighter` line 162). -/
def distanceTraveled (animationFrame thf : ℤ) (tpw : ℚ) : ℚ :=
  revealProgress animationFrame thf * tpw

/-- The span walk of `RoughHighlighter` (lines 172–242): spans are visited in
order with a running `cumulativeDistance`; the walk breaks at the first span
with `distanceTraveled ≤ cumulativeDistance`, otherwise the span is drawn
clipped to width `min(spanWidth, distanceTraveled - cumulativeDistance)`.
Returns the list of drawn (clipped) widths. -/
def drawnWidths (sf dT : ℚ) : List Span → ℚ → List ℚ
  | [], _ => []
  | s :: ss, cum =>
      if dT ≤ cum then []
      else min (spanPixelWidth sf s) (dT - cum) :: drawnWidths sf dT ss (cum + spanPixelWidth sf s)

/-- Total visible filled width across all spans at a given
`distanceTraveled`. -/
def visibleWidth (sf dT : ℚ) (spans : List Span) : ℚ :=
  (drawnWidths sf dT spans 0).sum

/-- `penDrawingEase`: ease-out cubic `1 - (1 - t)^3` used by the circle and
underline reveals. -/
def penDrawingEase (t : ℚ) : ℚ := 1 - (1 - t) ^ 3

/-- `linearProgress` of span `i` of `n` in `SvgCircler`/`SvgUnderliner`
(lines 520–527): `spanStart = i / n`, `spanEnd = (i+1) / n`,
`clamp01((progress - spanStart) / (spanEnd - spanStart))`. -/
def circleLinearProgress (p : ℚ) (i n : ℕ) : ℚ :=
  max 0 (min 1 ((p - (i : ℚ) / (n : ℚ)) / (((i : ℚ) + 1) / (n : ℚ) - (i : ℚ) / (n : ℚ))))

/-- Visible dash length of the path of span `i` of `n`: the source renders
nothing when `linearProgress ≤ 0` (zero visible length), otherwise
`visibleLength = arcLength * penDrawingEase(linearProgress)`. -/
def circleVisibleLength (len p : ℚ) (i n : ℕ) : ℚ :=
  if circleLinearProgress p i n ≤ 0 then 0
  else len * penDrawingEase (circleLinearProgress p i n)

/-- The `isActive={frame >= highlightStartFrame}` flag passed to
`UnblurReveal` (`Composition.tsx` line 545); the component renders nothing
when inactive. -/
def unblurIsActive (frame hsf : ℤ) : Bool := hsf ≤ frame

/-! ## Basic facts about row extents -/

lemma rowTop_le_of_mem {r : List WordBox} {w : WordBox} (h : w ∈ r) : rowTop r ≤ w.top := by
  induction r with
  | nil => cases h
  | cons a t ih =>
      cases t with
      | nil =>
          rcases List.mem_singleton.mp h with rfl
          exact le_refl _
      | cons b u =>
          rw [rowTop]
          rcases List.mem_cons.mp h with rfl | h2
          · exact min_le_left _ _
          · exact le_trans (min_le_right _ _) (ih h2)

lemma le_rowBottom_of_mem {r : List WordBox} {w : WordBox} (h : w ∈ r) :
    w.bottom ≤ rowBottom r := by
  induction r with
  | nil => cases h
  | cons a t ih =>
      cases t with
      | nil =>
          rcases List.mem_singleton.mp h with rfl
          exact le_refl _
      | cons b u =>
          rw [rowBottom]
          rcases List.mem_cons.mp h with rfl | h2
          · exact le_max_left _ _
          · exact le_trans (ih h2) (le_max_right _ _)

lemma exists_rowTop {r : List WordBox} (h : r ≠ []) : ∃ w ∈ r, rowTop r = w.top := by
  induction r with
  | nil => exact absurd rfl h
  | cons a t ih =>
      cases t with
      | nil => exact ⟨a, List.mem_cons_self _ _, rfl⟩
      | cons b u =>
          rcases ih (by simp) with ⟨w, hw, hval⟩
          rw [rowTop]
          rcases le_total a.top (rowTop (b :: u)) with hle | hle
          · exact ⟨a, List.mem_cons_self _ _, min_eq_left hle⟩
          · exact ⟨w, List.mem_cons_of_mem _ hw, by rw [min_eq_right hle, hval]⟩

lemma exists_rowBottom {r : List WordBox} (h : r ≠ []) : ∃ w ∈ r, rowBottom r = w.bottom := by
  induction r with
  | nil => exact absurd rfl h
  | cons a t ih =>
      cases t with
      | nil => exact ⟨a, List.mem_cons_self _ _, rfl⟩
      | cons b u =>
          rcases ih (by simp) with ⟨w, hw, hval⟩
          rw [rowBottom]
          rcases le_total a.bottom (rowBottom (b :: u)) with hle | hle
          · exact ⟨w, List.mem_cons_of_mem _ hw, by rw [max_eq_right hle, hval]⟩
          · exact ⟨a, List.mem_cons_self _ _, max_eq_left hle⟩

lemma rowTop_perm {r s : List WordBox} (h : r.Perm s) : rowTop r = rowTop s := by
  rcases eq_or_ne r [] with rfl | hr
  · rw [h.symm.eq_nil]
  · have hs : s ≠ [] := fun hnil => hr (by rw [hnil] at h; exact h.eq_nil)
    obtain ⟨w, hw, hv⟩ := exists_rowTop hr
    obtain ⟨v, hv2, hv3⟩ := exists_rowTop hs
    refine le_antisymm ?_ ?_
    · rw [hv3]; exact rowTop_le_of_mem (h.symm.subset hv2)
    · rw [hv]; exact rowTop_le_of_mem (h.subset hw)

lemma rowBottom_perm {r s : List WordBox} (h : r.Perm s) : rowBottom r = rowBottom s := by
  rcases eq_or_ne r [] with rfl | hr
  · rw [h.symm.eq_nil]
  · have hs : s ≠ [] := fun hnil => hr (by rw [hnil] at h; exact h.eq_nil)
    obtain ⟨w, hw, hv⟩ := exists_rowBottom hr
    obtain ⟨v, hv2, hv3⟩ := exists_rowBottom hs
    refine le_antisymm ?_ ?_
    · rw [hv]; exact le_rowBottom_of_mem (h.subset hw)
    · rw [hv3]; exact le_rowBottom_of_mem (h.symm.subset hv2)

lemma le_rowTop {r : List WordBox} (hne : r ≠ []) {q : ℚ}
    (h : ∀ w ∈ r, q ≤ w.top) : q ≤ rowTop r := by
  obtain ⟨w, hw, hv⟩ := exists_rowTop hne
  rw [hv]; exact h w hw

lemma rowBottom_le {r : List WordBox} (hne : r ≠ []) {q : ℚ}
    (h : ∀ w ∈ r, w.bottom ≤ q) : rowBottom r ≤ q := by
  obtain ⟨w, hw, hv⟩ := exists_rowBottom hne
  rw [hv]; exact h w hw

lemma rowTop_lt_rowBottom {r : List WordBox} (hne : r ≠ [])
    (hp : ∀ w ∈ r, 0 < w.height) : rowTop r < rowBottom r := by
  obtain ⟨w, hw, hv⟩ := exists_rowTop hne
  have h1 : w.top < w.bottom := by
    have := hp w hw
    unfold WordBox.bottom
    linarith
  calc rowTop r = w.top := hv
    _ < w.bottom := h1
    _ ≤ rowBottom r := le_rowBottom_of_mem hw

/-! ## Invariants of first-fit row assignment -/

lemma placeWord_nonempty {w : WordBox} :
    ∀ {rs : List (List WordBox)}, (∀ r ∈ rs, r ≠ []) →
      ∀ r1 ∈ placeWord w rs, r1 ≠ [] := by
  intro rs
  induction rs with
  | nil =>
      intro _ r1 h1
      rw [placeWord] at h1
      rcases List.mem_singleton.mp h1 with rfl
      simp
  | cons r rs ih =>
      intro hne r1 h1
      rw [placeWord] at h1
      by_cases hov : w.top < rowBottom r ∧ rowTop r < w.bottom
      · rw [if_pos hov] at h1
        rcases List.mem_cons.mp h1 with rfl | h2
        · simp
        · exact hne r1 (List.mem_cons_of_mem _ h2)
      · rw [if_neg hov] at h1
        rcases List.mem_cons.mp h1 with rfl | h2
        · exact hne r1 (List.mem_cons_self _ _)
        · exact ih (fun r2 h2a => hne r2 (List.mem_cons_of_mem _ h2a)) r1 h2

lemma mem_placeWord {w : WordBox} :
    ∀ {rs : List (List WordBox)} {r1 : List WordBox}, r1 ∈ placeWord w rs →
      ∀ m ∈ r1, (∃ r ∈ rs, m ∈ r) ∨ m = w := by
  intro rs
  induction rs with
  | nil =>
      intro r1 h1 m hm
      rw [placeWord] at h1
      rcases List.mem_singleton.mp h1 with rfl
      right
      exact List.mem_singleton.mp hm
  | cons r rs ih =>
      intro r1 h1 m hm
      rw [placeWord] at h1
      by_cases hov : w.top < rowBottom r ∧ rowTop r < w.bottom
      · rw [if_pos hov] at h1
        rcases List.mem_cons.mp h1 with rfl | h2
        · rcases List.mem_append.mp hm with hm2 | hm2
          · exact Or.inl ⟨r, List.mem_cons_self _ _, hm2⟩
          · exact Or.inr (List.mem_singleton.mp hm2)
        · exact Or.inl ⟨r1, List.mem_cons_of_mem _ h2, hm⟩
      · rw [if_neg hov] at h1
        rcases List.mem_cons.mp h1 with rfl | h2
        · exact Or.inl ⟨r1, List.mem_cons_self _ _, hm⟩
        · rcases ih h2 m hm with ⟨r2, h3, h4⟩ | h3
          · exact Or.inl ⟨r2, List.mem_cons_of_mem _ h3, h4⟩
          · exact Or.inr h3

/-- With positive heights and top-sorted input, a word whose overlap test
fails against a (nonempty, earlier-topped) row in fact lies entirely below
that row. -/
lemma rowBottom_le_top_of_not_overlap {w : WordBox} {r : List WordBox}
    (hw : 0 < w.height) (hne : r ≠ []) (hle : ∀ m ∈ r, m.top ≤ w.top)
    (hov : ¬(w.top < rowBottom r ∧ rowTop r < w.bottom)) :
    rowBottom r ≤ w.top := by
  rcases not_and_or.mp hov with h1 | h1
  · exact le_of_not_lt h1
  · exfalso
    obtain ⟨m, hm, hv⟩ := exists_rowTop hne
    have h2 : rowTop r ≤ w.top := by rw [hv]; exact hle m hm
    have h3 : w.top < w.bottom := by unfold WordBox.bottom; linarith
    exact absurd (lt_of_le_of_lt h2 h3) h1

lemma placeWord_chain {w : WordBox} (hw : 0 < w.height) :
    ∀ {rs : List (List WordBox)},
      (∀ r ∈ rs, r ≠ []) →
      rs.Pairwise (fun r r' => rowBottom r ≤ rowTop r') →
      (∀ r ∈ rs, ∀ m ∈ r, m.top ≤ w.top) →
      (placeWord w rs).Pairwise (fun r r' => rowBottom r ≤ rowTop r') := by
  intro rs
  induction rs with
  | nil =>
      intro _ _ _
      rw [placeWord]
      exact List.pairwise_singleton _ _
  | cons r rs ih =>
      intro hne hch hle
      have hch1 : ∀ r' ∈ rs, rowBottom r ≤ rowTop r' :=
        fun r' h => List.rel_of_pairwise_cons hch h
      have hch2 : rs.Pairwise (fun r r' => rowBottom r ≤ rowTop r') := hch.of_cons
      rw [placeWord]
      by_cases hov : w.top < rowBottom r ∧ rowTop r < w.bottom
      · rw [if_pos hov]
        cases rs with
        | nil => exact List.pairwise_singleton _ _
        | cons r2 rs2 =>
            exfalso
            have h1 : rowBottom r ≤ rowTop r2 := hch1 r2 (List.mem_cons_self _ _)
            have h2 : rowTop r2 ≤ w.top := by
              obtain ⟨m, hm, hv⟩ := exists_rowTop (hne r2 (List.mem_cons_of_mem _ (List.mem_cons_self _ _)))
              rw [hv]
              exact hle r2 (List.mem_cons_of_mem _ (List.mem_cons_self _ _)) m hm
            exact absurd hov.1 (not_lt.mpr (le_trans h1 h2))
      · rw [if_neg hov]
        have hne0 : r ≠ [] := hne r (List.mem_cons_self _ _)
        have hbw : rowBottom r ≤ w.top :=
          rowBottom_le_top_of_not_overlap hw hne0 (hle r (List.mem_cons_self _ _)) hov
        have hnet : ∀ r' ∈ rs, r' ≠ [] := fun r' h => hne r' (List.mem_cons_of_mem _ h)
        have hlet : ∀ r' ∈ rs, ∀ m ∈ r', m.top ≤ w.top :=
          fun r' h => hle r' (List.mem_cons_of_mem _ h)
        refine List.Pairwise.cons ?_ (ih hnet hch2 hlet)
        intro r1 h1
        have hne1 : r1 ≠ [] := placeWord_nonempty hnet r1 h1
        refine le_rowTop hne1 ?_
        intro m hm
        rcases mem_placeWord h1 m hm with ⟨r2, h3, h4⟩ | rfl
        · exact le_trans (hch1 r2 h3) (rowTop_le_of_mem h4)
        · exact hbw

/-- Invariant of the row-assignment fold: the resulting rows are nonempty,
their vertical extents form a chain (each row ends above where the next
row starts), and every member comes from the input or the initial rows. -/
lemma assignRows_fold_spec :
    ∀ (ws : List WordBox) (rs : List (List WordBox)),
      ws.Pairwise topLE →
      (∀ w ∈ ws, 0 < w.height) →
      (∀ r ∈ rs, r ≠ []) →
      rs.Pairwise (fun r r' => rowBottom r ≤ rowTop r') →
      (∀ r ∈ rs, ∀ m ∈ r, ∀ w ∈ ws, m.top ≤ w.top) →
      ((∀ r ∈ ws.foldl (fun acc w => placeWord w acc) rs, r ≠ []) ∧
       (ws.foldl (fun acc w => placeWord w acc) rs).Pairwise
         (fun r r' => rowBottom r ≤ rowTop r') ∧
       (∀ r ∈ ws.foldl (fun acc w => placeWord w acc) rs, ∀ m ∈ r,
         m ∈ ws ∨ ∃ r0 ∈ rs, m ∈ r0)) := by
  intro ws
  induction ws with
  | nil =>
      intro rs _ _ hne hch _
      refine ⟨hne, hch, ?_⟩
      intro r h m hm
      exact Or.inr ⟨r, h, hm⟩
  | cons w ws ih =>
      intro rs hsort hh hne hch hle
      have hw : 0 < w.height := hh w (List.mem_cons_self _ _)
      have hsort2 : ws.Pairwise topLE := hsort.of_cons
      have hwle : ∀ v ∈ ws, w.top ≤ v.top := fun v hv => List.rel_of_pairwise_cons hsort hv
      have hne2 : ∀ r ∈ placeWord w rs, r ≠ [] := placeWord_nonempty hne
      have hch2 : (placeWord w rs).Pairwise (fun r r' => rowBottom r ≤ rowTop r') :=
        placeWord_chain hw hne hch (fun r h m hm => hle r h m hm w (List.mem_cons_self _ _))
      have hle2 : ∀ r ∈ placeWord w rs, ∀ m ∈ r, ∀ v ∈ ws, m.top ≤ v.top := by
        intro r h m hm v hv
        rcases mem_placeWord h m hm with ⟨r0, h0, h1⟩ | rfl
        · exact hle r0 h0 m h1 v (List.mem_cons_of_mem _ hv)
        · exact hwle v hv
      have := ih (placeWord w rs) hsort2 (fun v hv => hh v (List.mem_cons_of_mem _ hv))
        hne2 hch2 hle2
      rw [List.foldl_cons]
      refine ⟨this.1, this.2.1, ?_⟩
      intro r h m hm
      rcases this.2.2 r h m hm with h1 | ⟨r0, h0, h1⟩
      · exact Or.inl (List.mem_cons_of_mem _ h1)
      · rcases mem_placeWord h0 m h1 with ⟨r2, h2, h3⟩ | rfl
        · exact Or.inr ⟨r2, h2, h3⟩
        · exact Or.inl (List.mem_cons_self _ _)

/-! ## Invariants of the span-merge walk -/

lemma mergeLoop_spec (lo hi : ℚ) :
    ∀ (ws : List WordBox) (c : Span),
      (∀ w ∈ ws, 0 < w.width ∧ 0 < w.height ∧ lo ≤ w.top ∧ w.bottom ≤ hi ∧ c.left ≤ w.left) →
      ws.Pairwise leftLE →
      c.top < c.bottom → c.left < c.right → lo ≤ c.top → c.bottom ≤ hi →
      (mergeLoop c ws ≠ [] ∧
       (∀ s ∈ mergeLoop c ws,
         lo ≤ s.top ∧ s.bottom ≤ hi ∧ s.left < s.right ∧ s.top < s.bottom ∧ c.left ≤ s.left) ∧
       (mergeLoop c ws).Pairwise (fun s t => s.right < t.left)) := by
  intro ws
  induction ws with
  | nil =>
      intro c _ _ htb hlr hlo hhi
      rw [mergeLoop]
      refine ⟨by simp, ?_, List.pairwise_singleton _ _⟩
      intro s hs
      rcases List.mem_singleton.mp hs with rfl
      exact ⟨hlo, hhi, hlr, htb, le_refl _⟩
  | cons w ws ih =>
      intro c hws hsort htb hlr hlo hhi
      obtain ⟨hw1, hw2, hw3, hw4, hw5⟩ := hws w (List.mem_cons_self _ _)
      have hwlr : w.left < w.right := by unfold WordBox.right; linarith
      have hwtb : w.top < w.bottom := by unfold WordBox.bottom; linarith
      have hsort2 : ws.Pairwise leftLE := hsort.of_cons
      have hwle : ∀ v ∈ ws, w.left ≤ v.left :=
        fun v hv => List.rel_of_pairwise_cons hsort hv
      rw [mergeLoop]
      by_cases hadj : isAdjacent c w
      · rw [if_pos hadj]
        have hts : ∀ v ∈ ws, 0 < v.width ∧ 0 < v.height ∧ lo ≤ v.top ∧ v.bottom ≤ hi ∧
            (extendSpan c w).left ≤ v.left := by
          intro v hv
          obtain ⟨a1, a2, a3, a4, a5⟩ := hws v (List.mem_cons_of_mem _ hv)
          exact ⟨a1, a2, a3, a4, a5⟩
        have h1 : (extendSpan c w).top < (extendSpan c w).bottom :=
          lt_of_le_of_lt (min_le_left _ _) (lt_of_lt_of_le htb (le_max_left _ _))
        have h2 : (extendSpan c w).left < (extendSpan c w).right :=
          lt_of_le_of_lt hw5 hwlr
        have h3 : lo ≤ (extendSpan c w).top := le_min hlo hw3
        have h4 : (extendSpan c w).bottom ≤ hi := max_le hhi hw4
        obtain ⟨b1, b2, b3⟩ := ih (extendSpan c w) hts hsort2 h1 h2 h3 h4
        exact ⟨b1, fun s hs => b2 s hs, b3⟩
      · rw [if_neg hadj]
        have hts : ∀ v ∈ ws, 0 < v.width ∧ 0 < v.height ∧ lo ≤ v.top ∧ v.bottom ≤ hi ∧
            (spanOfWord w).left ≤ v.left := by
          intro v hv
          obtain ⟨a1, a2, a3, a4, _⟩ := hws v (List.mem_cons_of_mem _ hv)
          exact ⟨a1, a2, a3, a4, hwle v hv⟩
        obtain ⟨b1, b2, b3⟩ := ih (spanOfWord w) hts hsort2 hwtb hwlr hw3 hw4
        have hcw : c.right < w.left := by
          unfold isAdjacent at hadj
          push_neg at hadj
          nlinarith [hadj]
        refine ⟨by simp, ?_, ?_⟩
        · intro s hs
          rcases List.mem_cons.mp hs with rfl | hs2
          · exact ⟨hlo, hhi, hlr, htb, le_refl _⟩
          · obtain ⟨a1, a2, a3, a4, a5⟩ := b2 s hs2
            exact ⟨a1, a2, a3, a4, le_trans (le_of_lt (lt_trans hlr hcw)) a5⟩
        · refine List.Pairwise.cons ?_ b3
          intro s hs
          obtain ⟨_, _, _, _, a5⟩ := b2 s hs
          exact lt_of_lt_of_le hcw a5

/-- Facts about the spans of one (left-sorted) row: nonempty when the row is,
vertically inside the row extent, nondegenerate, and pairwise separated
left-to-right. -/
lemma rowSpans_spec (row : List WordBox)
    (hpos : ∀ w ∈ row, 0 < w.width ∧ 0 < w.height)
    (hsorted : row.Pairwise leftLE) :
    (row ≠ [] → rowSpans row ≠ []) ∧
    (∀ s ∈ rowSpans row, rowTop row ≤ s.top ∧ s.bottom ≤ rowBottom row ∧
      s.left < s.right ∧ s.top < s.bottom) ∧
    (rowSpans row).Pairwise (fun s t => s.right < t.left) := by
  cases row with
  | nil =>
      refine ⟨fun h => absurd rfl h, ?_, ?_⟩
      · intro s hs; cases hs
      · exact List.Pairwise.nil
  | cons w ws =>
      obtain ⟨hw1, hw2⟩ := hpos w (List.mem_cons_self _ _)
      have hws : ∀ v ∈ ws, 0 < v.width ∧ 0 < v.height ∧ rowTop (w :: ws) ≤ v.top ∧
          v.bottom ≤ rowBottom (w :: ws) ∧ (spanOfWord w).left ≤ v.left := by
        intro v hv
        obtain ⟨a1, a2⟩ := hpos v (List.mem_cons_of_mem _ hv)
        exact ⟨a1, a2, rowTop_le_of_mem (List.mem_cons_of_mem _ hv),
          le_rowBottom_of_mem (List.mem_cons_of_mem _ hv),
          List.rel_of_pairwise_cons hsorted hv⟩
      have h1 : (spanOfWord w).top < (spanOfWord w).bottom := by
        unfold spanOfWord WordBox.bottom; dsimp; linarith
      have h2 : (spanOfWord w).left < (spanOfWord w).right := by
        unfold spanOfWord WordBox.right; dsimp; linarith
      have h3 : rowTop (w :: ws) ≤ (spanOfWord w).top :=
        rowTop_le_of_mem (List.mem_cons_self _ _)
      have h4 : (spanOfWord w).bottom ≤ rowBottom (w :: ws) :=
        le_rowBottom_of_mem (List.mem_cons_self _ _)
      obtain ⟨b1, b2, b3⟩ := mergeLoop_spec (rowTop (w :: ws)) (rowBottom (w :: ws)) ws
        (spanOfWord w) hws hsorted.of_cons h1 h2 h3 h4
      rw [rowSpans]
      refine ⟨fun _ => b1, ?_, b3⟩
      intro s hs
      obtain ⟨a1, a2, a3, a4, _⟩ := b2 s hs
      exact ⟨a1, a2, a3, a4⟩

/-! ## Facts about the full clustering pipeline -/

/-- The rows produced by `clusterRows` on well-formed boxes: nonempty,
vertically chained (each row's extent ends at or above where the next
begins), strictly increasing minimum tops, well-formed members, and each
row sorted by `left`. -/
lemma clusterRows_spec (ws : List WordBox)
    (hpos : ∀ w ∈ ws, 0 < w.width ∧ 0 < w.height) :
    (∀ r ∈ clusterRows ws, r ≠ []) ∧
    (clusterRows ws).Pairwise (fun r r' => rowBottom r ≤ rowTop r') ∧
    (clusterRows ws).Pairwise (fun r r' => rowTop r < rowTop r') ∧
    (∀ r ∈ clusterRows ws, ∀ m ∈ r, 0 < m.width ∧ 0 < m.height) ∧
    (∀ r ∈ clusterRows ws, r.Pairwise leftLE) := by
  set sws := ws.insertionSort topLE with hsws
  have hmem : ∀ w ∈ sws, w ∈ ws := fun w hw => (List.mem_insertionSort topLE).mp hw
  have hsort : sws.Pairwise topLE := List.sorted_insertionSort topLE ws
  have hh : ∀ w ∈ sws, 0 < w.height := fun w hw => (hpos w (hmem w hw)).2
  obtain ⟨c1, c2, c3⟩ := assignRows_fold_spec sws [] hsort hh (by simp) List.Pairwise.nil
    (by simp)
  have hrows : assignRows sws = sws.foldl (fun acc w => placeWord w acc) [] := rfl
  rw [← hrows] at c1 c2 c3
  have cmem : ∀ r ∈ assignRows sws, ∀ m ∈ r, 0 < m.width ∧ 0 < m.height := by
    intro r hr m hm
    rcases c3 r hr m hm with h1 | ⟨r0, h0, _⟩
    · exact hpos m (hmem m h1)
    · cases h0
  -- the rows are already sorted by their minimum top, so the row sort is a no-op
  have hchain : (assignRows sws).Pairwise rowLE := by
    refine c2.imp_of_mem ?_
    intro r r' hr hr' h
    have h1 : rowTop r < rowBottom r :=
      rowTop_lt_rowBottom (c1 r hr) (fun m hm => (cmem r hr m hm).2)
    exact le_of_lt (lt_of_lt_of_le h1 h)
  have hid : (assignRows sws).insertionSort rowLE = assignRows sws :=
    List.Sorted.insertionSort_eq hchain
  have hcr : clusterRows ws = (assignRows sws).map (·.insertionSort leftLE) := by
    rw [clusterRows, ← hsws, hid]
  have hperm : ∀ r : List WordBox, (r.insertionSort leftLE).Perm r :=
    fun r => List.perm_insertionSort leftLE r
  refine ⟨?_, ?_, ?_, ?_, ?_⟩
  · intro r hr
    rw [hcr] at hr
    obtain ⟨r0, h0, rfl⟩ := List.mem_map.mp hr
    intro hnil
    have : r0.Perm [] := by rw [← hnil]; exact (hperm r0).symm
    exact c1 r0 h0 this.eq_nil
  · rw [hcr, List.pairwise_map]
    refine c2.imp ?_
    intro r r' h
    rw [rowBottom_perm (hperm r), rowTop_perm (hperm r')]
    exact h
  · rw [hcr, List.pairwise_map]
    have : (assignRows sws).Pairwise (fun r r' => rowTop r < rowTop r') := by
      refine c2.imp_of_mem ?_
      intro r r' hr hr' h
      have h1 : rowTop r < rowBottom r :=
        rowTop_lt_rowBottom (c1 r hr) (fun m hm => (cmem r hr m hm).2)
      exact lt_of_lt_of_le h1 h
    refine this.imp ?_
    intro r r' h
    rw [rowTop_perm (hperm r), rowTop_perm (hperm r')]
    exact h
  · intro r hr m hm
    rw [hcr] at hr
    obtain ⟨r0, h0, rfl⟩ := List.mem_map.mp hr
    exact cmem r0 h0 m ((hperm r0).subset hm)
  · intro r hr
    rw [hcr] at hr
    obtain ⟨r0, h0, rfl⟩ := List.mem_map.mp hr
    exact List.sorted_insertionSort leftLE r0

/-- Every produced span is nondegenerate (positive width and height) when the
input boxes are well-formed. -/
lemma clusterSpans_nondegenerate (ws : List WordBox)
    (hpos : ∀ w ∈ ws, 0 < w.width ∧ 0 < w.height) :
    ∀ s ∈ clusterSpans ws, s.left < s.right ∧ s.top < s.bottom := by
  obtain ⟨_, _, _, c4, c5⟩ := clusterRows_spec ws hpos
  intro s hs
  rw [clusterSpans] at hs
  obtain ⟨l, hl, hsl⟩ := List.mem_flatten.mp hs
  obtain ⟨row, hrow, rfl⟩ := List.mem_map.mp hl
  obtain ⟨_, b2, _⟩ := rowSpans_spec row (c4 row hrow) (c5 row hrow)
  obtain ⟨_, _, a3, a4⟩ := b2 s hsl
  exact ⟨a3, a4⟩

lemma not_overlapsSpan_of_x {s t : Span} (h : s.right < t.left) : ¬ s.overlapsSpan t := by
  intro hov
  have h1 : min s.right t.right ≤ s.right := min_le_left _ _
  have h2 : t.left ≤ max s.left t.left := le_max_right _ _
  exact absurd (lt_trans (lt_of_le_of_lt h2 hov.1) (lt_of_le_of_lt h1 h)) (lt_irrefl _)

lemma not_overlapsSpan_of_y {s t : Span} (h : s.bottom ≤ t.top) : ¬ s.overlapsSpan t := by
  intro hov
  have h1 : min s.bottom t.bottom ≤ s.bottom := min_le_left _ _
  have h2 : t.top ≤ max s.top t.top := le_max_right _ _
  exact absurd (lt_of_lt_of_le (lt_of_le_of_lt h2 hov.2) (le_trans h1 h)) (lt_irrefl _)

/-! ## Reveal-engine helper lemmas -/

lemma spanPixelWidth_nonneg {sf : ℚ} (hsf : 0 ≤ sf) {s : Span}
    (h1 : s.left < s.right) (h2 : s.top < s.bottom) : 0 ≤ spanPixelWidth sf s := by
  unfold spanPixelWidth
  nlinarith

lemma spanPixelWidth_pos {sf : ℚ} (hsf : 0 < sf) {s : Span}
    (h1 : s.left < s.right) (h2 : s.top < s.bottom) : 0 < spanPixelWidth sf s := by
  unfold spanPixelWidth
  nlinarith

lemma totalPixelWidth_nonneg {sf : ℚ} {spans : List Span}
    (h : ∀ s ∈ spans, 0 ≤ spanPixelWidth sf s) : 0 ≤ totalPixelWidth sf spans := by
  unfold totalPixelWidth
  refine List.sum_nonneg ?_
  intro x hx
  obtain ⟨s, hs, rfl⟩ := List.mem_map.mp hx
  exact h s hs

lemma drawnWidths_sum_nonneg (sf : ℚ) :
    ∀ (spans : List Span) (cum dT : ℚ), (∀ s ∈ spans, 0 ≤ spanPixelWidth sf s) →
      0 ≤ (drawnWidths sf dT spans cum).sum := by
  intro spans
  induction spans with
  | nil => intro cum dT _; simp [drawnWidths]
  | cons s ss ih =>
      intro cum dT h
      rw [drawnWidths]
      by_cases hc : dT ≤ cum
      · rw [if_pos hc]; simp
      · rw [if_neg hc]
        rw [List.sum_cons]
        have h1 : 0 ≤ min (spanPixelWidth sf s) (dT - cum) :=
          le_min (h s (List.mem_cons_self _ _)) (by linarith [lt_of_not_le hc])
        have h2 := ih (cum + spanPixelWidth sf s) dT
          (fun t ht => h t (List.mem_cons_of_mem _ ht))
        linarith

lemma drawnWidths_sum_mono (sf : ℚ) :
    ∀ (spans : List Span) (cum dT dT' : ℚ), (∀ s ∈ spans, 0 ≤ spanPixelWidth sf s) →
      dT ≤ dT' →
      (drawnWidths sf dT spans cum).sum ≤ (drawnWidths sf dT' spans cum).sum := by
  intro spans
  induction spans with
  | nil => intro cum dT dT' _ _; simp [drawnWidths]
  | cons s ss ih =>
      intro cum dT dT' h hle
      rw [drawnWidths, drawnWidths]
      by_cases hc1 : dT ≤ cum
      · rw [if_pos hc1]
        by_cases hc2 : dT' ≤ cum
        · rw [if_pos hc2]
        · rw [if_neg hc2]
          have h3 := drawnWidths_sum_nonneg sf (s :: ss) cum dT' h
          rw [drawnWidths, if_neg hc2] at h3
          simpa using h3
      · rw [if_neg hc1, if_neg (fun hc2 => hc1 (le_trans hle hc2))]
        rw [List.sum_cons, List.sum_cons]
        have h1 : min (spanPixelWidth sf s) (dT - cum) ≤
            min (spanPixelWidth sf s) (dT' - cum) :=
          min_le_min (le_refl _) (by linarith)
        have h2 := ih (cum + spanPixelWidth sf s) dT dT'
          (fun t ht => h t (List.mem_cons_of_mem _ ht)) hle
        linarith

lemma drawnWidths_of_nonpos (sf : ℚ) (spans : List Span) {dT : ℚ} (h : dT ≤ 0) :
    drawnWidths sf dT spans 0 = [] := by
  cases spans with
  | nil => rfl
  | cons s ss => rw [drawnWidths, if_pos h]

lemma drawnWidths_full (sf : ℚ) :
    ∀ (spans : List Span) (cum : ℚ), (∀ s ∈ spans, 0 < spanPixelWidth sf s) →
      drawnWidths sf (cum + (spans.map (spanPixelWidth sf)).sum) spans cum =
        spans.map (spanPixelWidth sf) := by
  intro spans
  induction spans with
  | nil => intro cum _; rfl
  | cons s ss ih =>
      intro cum h
      have hs : 0 < spanPixelWidth sf s := h s (List.mem_cons_self _ _)
      have hrest : 0 ≤ (ss.map (spanPixelWidth sf)).sum := by
        refine List.sum_nonneg ?_
        intro x hx
        obtain ⟨t, ht, rfl⟩ := List.mem_map.mp hx
        exact le_of_lt (h t (List.mem_cons_of_mem _ ht))
      rw [drawnWidths, List.map_cons, List.sum_cons]
      rw [if_neg (by linarith)]
      have h1 : min (spanPixelWidth sf s)
          (cum + (spanPixelWidth sf s + (ss.map (spanPixelWidth sf)).sum) - cum) =
          spanPixelWidth sf s := min_eq_left (by linarith)
      have h2 : cum + (spanPixelWidth sf s + (ss.map (spanPixelWidth sf)).sum) =
          (cum + spanPixelWidth sf s) + (ss.map (spanPixelWidth sf)).sum := by ring
      rw [h1]
      congr 1
      rw [h2]
      exact ih (cum + spanPixelWidth sf s) (fun t ht => h t (List.mem_cons_of_mem _ ht))

lemma revealProgress_mono {thf : ℤ} (h : 0 < thf) {a b : ℤ} (hab : a ≤ b) :
    revealProgress a thf ≤ revealProgress b thf := by
  unfold revealProgress
  refine min_le_min (le_refl _) ?_
  have h1 : (0 : ℚ) < (thf : ℚ) := by exact_mod_cast h
  have h2 : (a : ℚ) ≤ (b : ℚ) := by exact_mod_cast hab
  gcongr

lemma revealProgress_zero (thf : ℤ) : revealProgress 0 thf = 0 := by
  unfold revealProgress
  norm_num

lemma revealProgress_of_le {af thf : ℤ} (h : 0 < thf) (haf : thf ≤ af) :
    revealProgress af thf = 1 := by
  unfold revealProgress
  have h1 : (0 : ℚ) < (thf : ℚ) := by exact_mod_cast h
  have h2 : (thf : ℚ) ≤ (af : ℚ) := by exact_mod_cast haf
  refine min_eq_left ?_
  rw [le_div_iff₀ h1]
  linarith

lemma thf_pos (ws : List WordBox) (cps : ℚ) : 0 < totalHighlightFrames ws cps :=
  lt_of_lt_of_le (by norm_num) (le_max_left _ _)

lemma hsf_ge (leadIn : ℚ) : 30 ≤ highlightStartFrame leadIn := le_max_left _ _

lemma highlightFrame_of_le {f hsf : ℤ} (h : f ≤ hsf) : highlightFrame f hsf = 0 := by
  unfold highlightFrame
  omega

lemma circleLinearProgress_at_zero (i n : ℕ) : circleLinearProgress 0 i n = 0 := by
  unfold circleLinearProgress
  rcases Nat.eq_zero_or_pos n with rfl | hn
  · norm_num
  · have hn1 : (0 : ℚ) < (n : ℚ) := by exact_mod_cast hn
    have hne : (n : ℚ) ≠ 0 := ne_of_gt hn1
    have hd : ((i : ℚ) + 1) / (n : ℚ) - (i : ℚ) / (n : ℚ) = 1 / (n : ℚ) := by
      field_simp
    rw [hd]
    have hq2 : ((0 : ℚ) - (i : ℚ) / (n : ℚ)) / (1 / (n : ℚ)) = -(i : ℚ) := by
      field_simp
    rw [hq2]
    have h1 : min (1 : ℚ) (-(i : ℚ)) ≤ 0 :=
      le_trans (min_le_right _ _) (neg_nonpos.mpr (Nat.cast_nonneg i))
    exact max_eq_left h1

lemma circleVisibleLength_at_zero (len : ℚ) (i n : ℕ) :
    circleVisibleLength len 0 i n = 0 := by
  unfold circleVisibleLength
  rw [circleLinearProgress_at_zero, if_pos (le_refl 0)]

lemma penDrawingEase_one : penDrawingEase 1 = 1 := by
  unfold penDrawingEase
  norm_num

lemma circleLinearProgress_at_one {i n : ℕ} (hi : i < n) :
    circleLinearProgress 1 i n = 1 := by
  have hn : 0 < n := lt_of_le_of_lt (Nat.zero_le i) hi
  have hn1 : (0 : ℚ) < (n : ℚ) := by exact_mod_cast hn
  have hne : (n : ℚ) ≠ 0 := ne_of_gt hn1
  unfold circleLinearProgress
  have hd : ((i : ℚ) + 1) / (n : ℚ) - (i : ℚ) / (n : ℚ) = 1 / (n : ℚ) := by
    field_simp
  rw [hd]
  have hq2 : ((1 : ℚ) - (i : ℚ) / (n : ℚ)) / (1 / (n : ℚ)) = (n : ℚ) - (i : ℚ) := by
    field_simp
  rw [hq2]
  have hin : (i : ℚ) + 1 ≤ (n : ℚ) := by exact_mod_cast hi
  rw [min_eq_left (by linarith), max_eq_right (by norm_num : (0 : ℚ) ≤ 1)]

lemma circleVisibleLength_at_one (len : ℚ) {i n : ℕ} (hi : i < n) :
    circleVisibleLength len 1 i n = len := by
  unfold circleVisibleLength
  rw [circleLinearProgress_at_one hi, if_neg (by norm_num), penDrawingEase_one, mul_one]

/-! ## Interpolation bound lemmas -/

lemma easeOutCubic_mem {t : ℚ} (h0 : 0 ≤ t) (h1 : t ≤ 1) :
    0 ≤ easeOutCubic t ∧ easeOutCubic t ≤ 1 := by
  unfold easeOutCubic
  have ha : (1 - t) ^ 3 ≤ 1 := pow_le_one₀ (by linarith) (by linarith)
  have hb : 0 ≤ (1 - t) ^ 3 := pow_nonneg (by linarith) 3
  constructor <;> linarith

lemma easeInCubic_mem {t : ℚ} (h0 : 0 ≤ t) (h1 : t ≤ 1) :
    0 ≤ easeInCubic t ∧ easeInCubic t ≤ 1 := by
  unfold easeInCubic
  exact ⟨pow_nonneg h0 3, pow_le_one₀ h0 h1⟩

lemma easeLinear_mem {t : ℚ} (h0 : 0 ≤ t) (h1 : t ≤ 1) :
    0 ≤ easeLinear t ∧ easeLinear t ≤ 1 := ⟨h0, h1⟩

lemma affine_mem {c y0 y1 : ℚ} (h0 : 0 ≤ c) (h1 : c ≤ 1) :
    min y0 y1 ≤ y0 + c * (y1 - y0) ∧ y0 + c * (y1 - y0) ≤ max y0 y1 := by
  rcases le_total y0 y1 with h | h
  · rw [min_eq_left h, max_eq_right h]
    constructor <;> nlinarith
  · rw [min_eq_right h, max_eq_left h]
    constructor <;> nlinarith

lemma interpolate1_false_true (x a b y0 y1 : ℚ) (e : ℚ → ℚ) :
    interpolate1 x a b y0 y1 e false true =
      y0 + e (((if b < x then b else x) - a) / (b - a)) * (y1 - y0) := by
  unfold interpolate1
  simp

lemma interpolate1_true_false (x a b y0 y1 : ℚ) (e : ℚ → ℚ) :
    interpolate1 x a b y0 y1 e true false =
      y0 + e (((if x < a then a else x) - a) / (b - a)) * (y1 - y0) := by
  unfold interpolate1
  simp

/-- A right-clamped interpolation evaluated at or after the left keyframe
stays within the output keyframe range (for an easing mapping `[0,1]` into
`[0,1]`). -/
lemma interpolate1_bounds_right {x a b y0 y1 : ℚ} {e : ℚ → ℚ}
    (hab : a < b) (hx : a ≤ x)
    (he : ∀ t, 0 ≤ t → t ≤ 1 → 0 ≤ e t ∧ e t ≤ 1) :
    min y0 y1 ≤ interpolate1 x a b y0 y1 e false true ∧
      interpolate1 x a b y0 y1 e false true ≤ max y0 y1 := by
  rw [interpolate1_false_true]
  have hba : 0 < b - a := by linarith
  set xq := if b < x then b else x with hxq
  have hx0 : a ≤ xq ∧ xq ≤ b := by
    by_cases hbx : b < x
    · rw [hxq, if_pos hbx]
      exact ⟨le_of_lt hab, le_refl b⟩
    · rw [hxq, if_neg hbx]
      exact ⟨hx, le_of_not_lt hbx⟩
  have ht0 : 0 ≤ (xq - a) / (b - a) := div_nonneg (by linarith [hx0.1]) (le_of_lt hba)
  have ht1 : (xq - a) / (b - a) ≤ 1 := by
    rw [div_le_one hba]
    linarith [hx0.2]
  obtain ⟨e0, e1⟩ := he _ ht0 ht1
  exact affine_mem e0 e1

/-- A left-clamped interpolation evaluated at or before the right keyframe
stays within the output keyframe range. -/
lemma interpolate1_bounds_left {x a b y0 y1 : ℚ} {e : ℚ → ℚ}
    (hab : a < b) (hx : x ≤ b)
    (he : ∀ t, 0 ≤ t → t ≤ 1 → 0 ≤ e t ∧ e t ≤ 1) :
    min y0 y1 ≤ interpolate1 x a b y0 y1 e true false ∧
      interpolate1 x a b y0 y1 e true false ≤ max y0 y1 := by
  rw [interpolate1_true_false]
  have hba : 0 < b - a := by linarith
  set xq := if x < a then a else x with hxq
  have hx0 : a ≤ xq ∧ xq ≤ b := by
    by_cases hax : x < a
    · rw [hxq, if_pos hax]
      exact ⟨le_refl a, le_of_lt hab⟩
    · rw [hxq, if_neg hax]
      exact ⟨le_of_not_lt hax, hx⟩
  have ht0 : 0 ≤ (xq - a) / (b - a) := div_nonneg (by linarith [hx0.1]) (le_of_lt hba)
  have ht1 : (xq - a) / (b - a) ≤ 1 := by
    rw [div_le_one hba]
    linarith [hx0.2]
  obtain ⟨e0, e1⟩ := he _ ht0 ht1
  exact affine_mem e0 e1

/-! ## Claim theorems -/

/-- C1 (counterexample): the Reveal Engine's `totalHighlightFrames` and the
Duration Resolver's `highlightFrames` disagree already for the empty
selection at 30 fps: the composition computes `max(30, ceil(0)) = 30` while
the resolver returns `fps * 2 = 60`. -/
theorem C1_counterexample :
    totalHighlightFrames [] 15 ≠
      estimateHighlightDuration [] 15 MarkingMode.highlight (3 / 2) none 30 := by
  norm_num [totalHighlightFrames, estimateHighlightDuration, totalCharacters]

/-- C1 (amended): the reveal frame count of the composition equals the
Duration Resolver's `highlightFrames` exactly for requests with
`frameRate = 30`, a non-empty selection, and not in zoom mode with a zoom
box.  (The composition hard-codes `FPS = 30` and floors at 30 frames, so the
two differ for empty selections, for 24/60 fps requests, and for zoom
requests.) -/
theorem C1_theorem (ws : List WordBox) (cps zd : ℚ) (mm : MarkingMode)
    (zb : Option ZoomBox) (hne : ws ≠ [])
    (hz : ¬(mm = MarkingMode.zoom ∧ zb.isSome)) :
    estimateHighlightDuration ws cps mm zd zb 30 = totalHighlightFrames ws cps := by
  unfold estimateHighlightDuration totalHighlightFrames
  rw [if_neg hz, if_neg hne]
  norm_num

/-- C1 witness: a concrete one-word selection at 30 fps where the two frame
counts agree. -/
theorem C1_witness :
    (([⟨"ab", 0, 0, 10, 10, 1⟩] : List WordBox) ≠ []) ∧
    ¬(MarkingMode.highlight = MarkingMode.zoom ∧ (none : Option ZoomBox).isSome) ∧
    estimateHighlightDuration [⟨"ab", 0, 0, 10, 10, 1⟩]
      15 MarkingMode.highlight (3 / 2) none 30 =
      totalHighlightFrames [⟨"ab", 0, 0, 10, 10, 1⟩] 15 :=
  ⟨by simp, by simp, C1_theorem _ _ _ _ _ (by simp) (by simp)⟩

/-- C2: the Duration Resolver returns `ceil(zoomDurationSeconds * fps)` in
zoom mode with a zoom box; otherwise `fps * 2` for an empty selection and
`max(fps, ceil(totalChars / charsPerSecond * fps))` for a non-empty one; in
particular 60 frames for the empty selection and 300 frames for a 150
character selection at 15 chars/s and 30 fps. -/
theorem C2_theorem :
    (∀ (ws : List WordBox) (cps zd : ℚ) (mm : MarkingMode) (zb : Option ZoomBox) (fps : ℕ),
      (mm = MarkingMode.zoom ∧ zb.isSome →
        estimateHighlightDuration ws cps mm zd zb fps = ⌈zd * (fps : ℚ)⌉) ∧
      (¬(mm = MarkingMode.zoom ∧ zb.isSome) → ws = [] →
        estimateHighlightDuration ws cps mm zd zb fps = (fps : ℤ) * 2) ∧
      (¬(mm = MarkingMode.zoom ∧ zb.isSome) → ws ≠ [] →
        estimateHighlightDuration ws cps mm zd zb fps =
          max (fps : ℤ) ⌈((totalCharacters ws : ℚ) / cps) * (fps : ℚ)⌉)) ∧
    estimateHighlightDuration [] 15 MarkingMode.highlight (3 / 2) none 30 = 60 ∧
    estimateHighlightDuration
      (List.replicate 10 (⟨"abcdefghijklmno", 0, 0, 10, 10, 1⟩ : WordBox))
      15 MarkingMode.highlight (3 / 2) none 30 = 300 := by
  refine ⟨?_, ?_, ?_⟩
  · intro ws cps zd mm zb fps
    refine ⟨?_, ?_, ?_⟩
    · intro h
      unfold estimateHighlightDuration
      rw [if_pos h]
    · intro h he
      unfold estimateHighlightDuration
      rw [if_neg h, if_pos he]
    · intro h hne
      unfold estimateHighlightDuration
      rw [if_neg h, if_neg hne]
  · norm_num [estimateHighlightDuration]
  · have h150 : totalCharacters
        (List.replicate 10
          { text := "abcdefghijklmno", left := 0, top := 0, width := 10, height := 10,
            confidence := 1 }) = 150 := by decide
    unfold estimateHighlightDuration
    rw [if_neg (by simp), if_neg (by simp), h150]
    norm_num

/-- C3: during span merging a box joins the current span exactly when the
horizontal gap is strictly less than 3 times the average of the current
span's height and the box's height; two 20 px-high boxes with a 50 px gap
merge into one span, with a 65 px gap they produce two spans. -/
theorem C3_theorem :
    (∀ (c : Span) (w : WordBox),
      isAdjacent c w ↔ w.left - c.right < 3 * ((c.bottom - c.top + w.height) / 2)) ∧
    clusterSpans [⟨"aa", 0, 0, 100, 20, 1⟩, ⟨"bb", 150, 0, 100, 20, 1⟩] =
      [⟨0, 0, 250, 20⟩] ∧
    clusterSpans [⟨"aa", 0, 0, 100, 20, 1⟩, ⟨"bb", 165, 0, 100, 20, 1⟩] =
      [⟨0, 0, 100, 20⟩, ⟨165, 0, 265, 20⟩] := by
  refine ⟨?_, ?_, ?_⟩
  · intro c w
    unfold isAdjacent
    constructor <;> intro h <;> linarith
  · norm_num [clusterSpans, clusterRows, assignRows, placeWord, rowSpans, mergeLoop,
      spanOfWord, extendSpan, isAdjacent, WordBox.right, WordBox.bottom, rowTop, rowBottom,
      List.insertionSort, List.orderedInsert, topLE, leftLE, rowLE]
  · norm_num [clusterSpans, clusterRows, assignRows, placeWord, rowSpans, mergeLoop,
      spanOfWord, extendSpan, isAdjacent, WordBox.right, WordBox.bottom, rowTop, rowBottom,
      List.insertionSort, List.orderedInsert, topLE, leftLE, rowLE]

/-- C9 (counterexample): the pre-clamp aspect-corrected height of a zoom box
of width 0.4 drawn on a 1920×1080 image for a 1080×1920 output is
`0.4 × (1920/1080) / (1080/1920) = 512/405 ≈ 1.264`, not `≈ 2.25` as the
claim's example states. -/
theorem C9_counterexample :
    preClampZoomHeight 1920 1080 1080 1920 (2 / 5) = 512 / 405 ∧
    |(512 / 405 : ℚ) - 9 / 4| > 4 / 5 := by
  constructor
  · norm_num [preClampZoomHeight]
  · rw [abs_sub_comm, abs_of_pos (by norm_num)]
    norm_num

/-- C9 (amended): the aspect-correction formula yields pre-clamp height
`512/405 ≈ 1.264` for width 0.4 (1920×1080 image, portrait output); the
clamping logic then caps the box within `[0,1]`, shrinking the width to
`81/256` (height exactly 1), and every produced box has width at least the
5% minimum (enlarged rather than dropped). -/
theorem C9_theorem :
    preClampZoomHeight 1920 1080 1080 1920 (2 / 5) = 512 / 405 ∧
    calculateZoomBox 1920 1080 1080 1920 (1 / 10) (1 / 10) (1 / 2) (9 / 10) =
      { x := 1 / 10, y := 0, width := 81 / 256, height := 1 } ∧
    (∀ imageW imageH outW outH sx sy ex ey : ℚ,
      1 / 20 ≤ (calculateZoomBox imageW imageH outW outH sx sy ex ey).width) := by
  refine ⟨by norm_num [preClampZoomHeight], ?_, ?_⟩
  · norm_num [calculateZoomBox, abs_of_nonneg]
  · intro imageW imageH outW outH sx sy ex ey
    unfold calculateZoomBox
    exact le_max_left _ _

/-- C10: the composition computes
`highlightStartFrame = max(30, round(leadInSeconds × 30))`, which is always
at least 30, so during the first 30 frames the highlight frame counter is 0
and no marking mode shows any annotation: the highlight walk draws nothing,
every circle/underline path has zero visible length, and the unblur overlay
is inactive. -/
theorem C10_theorem (leadIn cps sf len : ℚ) (ws : List WordBox) (f : ℤ) (i n : ℕ)
    (hf : f < 30) :
    highlightStartFrame leadIn = max 30 (jsRound (leadIn * 30)) ∧
    30 ≤ highlightStartFrame leadIn ∧
    highlightFrame f (highlightStartFrame leadIn) = 0 ∧
    drawnWidths sf
      (distanceTraveled (highlightFrame f (highlightStartFrame leadIn))
        (totalHighlightFrames ws cps) (totalPixelWidth sf (clusterSpans ws)))
      (clusterSpans ws) 0 = [] ∧
    circleVisibleLength len
      (revealProgress (highlightFrame f (highlightStartFrame leadIn))
        (totalHighlightFrames ws cps)) i n = 0 ∧
    unblurIsActive f (highlightStartFrame leadIn) = false := by
  have h30 : 30 ≤ highlightStartFrame leadIn := hsf_ge leadIn
  have hf0 : highlightFrame f (highlightStartFrame leadIn) = 0 :=
    highlightFrame_of_le (by omega)
  refine ⟨rfl, h30, hf0, ?_, ?_, ?_⟩
  · rw [hf0]
    unfold distanceTraveled
    rw [revealProgress_zero, zero_mul]
    exact drawnWidths_of_nonpos sf _ (le_refl 0)
  · rw [hf0, revealProgress_zero]
    exact circleVisibleLength_at_zero len i n
  · have hn : ¬ (highlightStartFrame leadIn ≤ f) := by omega
    simp [unblurIsActive, hn]

/-- C10 witness: with `leadInSeconds = 0` at frame 10 no annotation is
visible in any mode. -/
theorem C10_witness :
    (10 : ℤ) < 30 ∧
    (highlightStartFrame 0 = max 30 (jsRound (0 * 30)) ∧
     30 ≤ highlightStartFrame 0 ∧
     highlightFrame 10 (highlightStartFrame 0) = 0 ∧
     drawnWidths 1
       (distanceTraveled (highlightFrame 10 (highlightStartFrame 0))
         (totalHighlightFrames [] 15) (totalPixelWidth 1 (clusterSpans [])))
       (clusterSpans []) 0 = [] ∧
     circleVisibleLength 5
       (revealProgress (highlightFrame 10 (highlightStartFrame 0))
         (totalHighlightFrames [] 15)) 0 1 = 0 ∧
     unblurIsActive 10 (highlightStartFrame 0) = false) :=
  ⟨by norm_num, C10_theorem 0 15 1 5 [] 10 0 1 (by norm_num)⟩

/-- C4: reading-order invariant — for well-formed boxes (positive width and
height), adjacent spans in the clustering output either come from a row that
is strictly above (smaller minimum top), or share a row and have strictly
increasing left edges. -/
theorem C4_theorem (ws : List WordBox)
    (hpos : ∀ w ∈ ws, 0 < w.width ∧ 0 < w.height) :
    (taggedSpans ws).Chain'
      (fun p q => p.1 < q.1 ∨ (p.1 = q.1 ∧ p.2.left < q.2.left)) := by
  obtain ⟨c1, _, c3, c4, c5⟩ := clusterRows_spec ws hpos
  rw [taggedSpans]
  have hnn : [] ∉ (clusterRows ws).map
      (fun row => (rowSpans row).map (fun s => (rowTop row, s))) := by
    intro hmem
    obtain ⟨row, hrow, heq⟩ := List.mem_map.mp hmem
    obtain ⟨b1, _, _⟩ := rowSpans_spec row (c4 row hrow) (c5 row hrow)
    exact b1 (c1 row hrow) (List.map_eq_nil_iff.mp heq)
  rw [List.chain'_flatten hnn]
  constructor
  · intro l hl
    obtain ⟨row, hrow, rfl⟩ := List.mem_map.mp hl
    rw [List.chain'_map]
    obtain ⟨_, b2, b3⟩ := rowSpans_spec row (c4 row hrow) (c5 row hrow)
    have hp : (rowSpans row).Pairwise (fun s t => s.left < t.left) := by
      refine b3.imp_of_mem ?_
      intro s t hs _ h
      obtain ⟨_, _, hlr, _⟩ := b2 s hs
      exact lt_trans hlr h
    refine hp.chain'.imp ?_
    intro s t h
    exact Or.inr ⟨rfl, h⟩
  · rw [List.chain'_map]
    refine c3.chain'.imp ?_
    intro r r' h x hx y hy
    obtain ⟨s, _, rfl⟩ := List.mem_map.mp (List.mem_of_mem_getLast? hx)
    obtain ⟨t, _, rfl⟩ := List.mem_map.mp (List.mem_of_mem_head? hy)
    exact Or.inl h

/-- C4 witness: two stacked well-formed boxes produce two row-tagged spans in
reading order. -/
theorem C4_witness :
    (∀ w ∈ ([⟨"a", 0, 0, 10, 10, 1⟩, ⟨"b", 0, 20, 10, 10, 1⟩] : List WordBox),
      0 < w.width ∧ 0 < w.height) ∧
    (taggedSpans [⟨"a", 0, 0, 10, 10, 1⟩, ⟨"b", 0, 20, 10, 10, 1⟩]).Chain'
      (fun p q => p.1 < q.1 ∨ (p.1 = q.1 ∧ p.2.left < q.2.left)) :=
  ⟨by decide, C4_theorem _ (by decide)⟩

/-- C5 (counterexample): with a malformed (negative-height) box in the
selection, the clustering produces two spans with positive-area overlap —
the first span `[0,10]×[50,55]` and the third span `[6,26]×[52,58]`
intersect. -/
theorem C5_counterexample :
    ¬ (clusterSpans [⟨"a", 1000, 0, 10, 100, 1⟩, ⟨"b", 0, 50, 10, 5, 1⟩,
        ⟨"c", 5, 90, 10, -80, 1⟩, ⟨"d", 6, 52, 20, 6, 1⟩]).Pairwise
      (fun s t => ¬ s.overlapsSpan t) := by
  have h : clusterSpans [⟨"a", 1000, 0, 10, 100, 1⟩, ⟨"b", 0, 50, 10, 5, 1⟩,
      ⟨"c", 5, 90, 10, -80, 1⟩, ⟨"d", 6, 52, 20, 6, 1⟩] =
      [⟨0, 50, 10, 55⟩, ⟨5, 90, 15, 10⟩, ⟨6, 52, 26, 58⟩, ⟨1000, 0, 1010, 100⟩] := by
    norm_num [clusterSpans, clusterRows, assignRows, placeWord, rowSpans, mergeLoop,
      spanOfWord, extendSpan, isAdjacent, WordBox.right, WordBox.bottom, rowTop, rowBottom,
      List.insertionSort, List.orderedInsert, topLE, leftLE, rowLE]
  rw [h]
  intro hp
  have h1 := (List.pairwise_cons.mp hp).1 ⟨6, 52, 26, 58⟩ (by simp)
  refine h1 ⟨?_, ?_⟩ <;> norm_num

/-- C5 (amended): for well-formed boxes (positive width and height) the spans
produced by the clustering algorithm are pairwise non-overlapping, including
spans from different rows.  (Without the well-formedness assumption the spec
itself makes in §6, a negative-height box can produce overlapping spans.) -/
theorem C5_theorem (ws : List WordBox)
    (hpos : ∀ w ∈ ws, 0 < w.width ∧ 0 < w.height) :
    (clusterSpans ws).Pairwise (fun s t => ¬ s.overlapsSpan t) := by
  obtain ⟨_, c2, _, c4, c5⟩ := clusterRows_spec ws hpos
  rw [clusterSpans, List.pairwise_flatten]
  constructor
  · intro l hl
    obtain ⟨row, hrow, rfl⟩ := List.mem_map.mp hl
    obtain ⟨_, _, b3⟩ := rowSpans_spec row (c4 row hrow) (c5 row hrow)
    exact b3.imp fun h => not_overlapsSpan_of_x h
  · rw [List.pairwise_map]
    refine c2.imp_of_mem ?_
    intro r r' hr hr' hch x hx y hy
    obtain ⟨_, b2, _⟩ := rowSpans_spec r (c4 r hr) (c5 r hr)
    obtain ⟨_, b2t, _⟩ := rowSpans_spec r' (c4 r' hr') (c5 r' hr')
    obtain ⟨_, hxb, _, _⟩ := b2 x hx
    obtain ⟨hyt, _, _, _⟩ := b2t y hy
    exact not_overlapsSpan_of_y (le_trans hxb (le_trans hch hyt))

/-- C5 witness: two well-formed boxes on one row yield non-overlapping spans. -/
theorem C5_witness :
    (∀ w ∈ ([⟨"aa", 0, 0, 100, 20, 1⟩, ⟨"bb", 165, 0, 100, 20, 1⟩] : List WordBox),
      0 < w.width ∧ 0 < w.height) ∧
    (clusterSpans [⟨"aa", 0, 0, 100, 20, 1⟩, ⟨"bb", 165, 0, 100, 20, 1⟩]).Pairwise
      (fun s t => ¬ s.overlapsSpan t) :=
  ⟨by decide, C5_theorem _ (by decide)⟩

/-- C6: for a fixed configuration and well-formed word selection,
`distanceTraveled` is non-decreasing in the frame number, and so is the total
visible filled width across all spans. -/
theorem C6_theorem (ws : List WordBox) (cps sf : ℚ) (hsf f g : ℤ)
    (hpos : ∀ w ∈ ws, 0 < w.width ∧ 0 < w.height) (hsf0 : 0 ≤ sf) (hfg : f ≤ g) :
    distanceTraveled (highlightFrame f hsf) (totalHighlightFrames ws cps)
        (totalPixelWidth sf (clusterSpans ws)) ≤
      distanceTraveled (highlightFrame g hsf) (totalHighlightFrames ws cps)
        (totalPixelWidth sf (clusterSpans ws)) ∧
    visibleWidth sf
        (distanceTraveled (highlightFrame f hsf) (totalHighlightFrames ws cps)
          (totalPixelWidth sf (clusterSpans ws))) (clusterSpans ws) ≤
      visibleWidth sf
        (distanceTraveled (highlightFrame g hsf) (totalHighlightFrames ws cps)
          (totalPixelWidth sf (clusterSpans ws))) (clusterSpans ws) := by
  have hth := thf_pos ws cps
  have hwnn : ∀ s ∈ clusterSpans ws, 0 ≤ spanPixelWidth sf s := by
    intro s hs
    obtain ⟨h1, h2⟩ := clusterSpans_nondegenerate ws hpos s hs
    exact spanPixelWidth_nonneg hsf0 h1 h2
  have htp : 0 ≤ totalPixelWidth sf (clusterSpans ws) := totalPixelWidth_nonneg hwnn
  have hhf : highlightFrame f hsf ≤ highlightFrame g hsf := by
    unfold highlightFrame
    omega
  have hdt : distanceTraveled (highlightFrame f hsf) (totalHighlightFrames ws cps)
      (totalPixelWidth sf (clusterSpans ws)) ≤
      distanceTraveled (highlightFrame g hsf) (totalHighlightFrames ws cps)
        (totalPixelWidth sf (clusterSpans ws)) :=
    mul_le_mul_of_nonneg_right (revealProgress_mono hth hhf) htp
  refine ⟨hdt, ?_⟩
  unfold visibleWidth
  exact drawnWidths_sum_mono sf (clusterSpans ws) 0 _ _ hwnn hdt

/-- C6 witness: on a concrete selection the reveal is monotone from frame 20
to frame 40. -/
theorem C6_witness :
    (∀ w ∈ ([⟨"aa", 0, 0, 100, 20, 1⟩] : List WordBox), 0 < w.width ∧ 0 < w.height) ∧
    (0 : ℚ) ≤ 1 ∧ (20 : ℤ) ≤ 40 ∧
    (distanceTraveled (highlightFrame 20 30) (totalHighlightFrames [⟨"aa", 0, 0, 100, 20, 1⟩] 15)
        (totalPixelWidth 1 (clusterSpans [⟨"aa", 0, 0, 100, 20, 1⟩])) ≤
      distanceTraveled (highlightFrame 40 30) (totalHighlightFrames [⟨"aa", 0, 0, 100, 20, 1⟩] 15)
        (totalPixelWidth 1 (clusterSpans [⟨"aa", 0, 0, 100, 20, 1⟩])) ∧
    visibleWidth 1
        (distanceTraveled (highlightFrame 20 30) (totalHighlightFrames [⟨"aa", 0, 0, 100, 20, 1⟩] 15)
          (totalPixelWidth 1 (clusterSpans [⟨"aa", 0, 0, 100, 20, 1⟩])))
        (clusterSpans [⟨"aa", 0, 0, 100, 20, 1⟩]) ≤
      visibleWidth 1
        (distanceTraveled (highlightFrame 40 30) (totalHighlightFrames [⟨"aa", 0, 0, 100, 20, 1⟩] 15)
          (totalPixelWidth 1 (clusterSpans [⟨"aa", 0, 0, 100, 20, 1⟩])))
        (clusterSpans [⟨"aa", 0, 0, 100, 20, 1⟩])) :=
  ⟨by decide, by norm_num, by norm_num,
    C6_theorem [⟨"aa", 0, 0, 100, 20, 1⟩] 15 1 30 20 40 (by decide) (by norm_num) (by norm_num)⟩

/-- C7: reveal boundary conditions — at frame 0 the highlight walk draws
nothing, every circle/underline path has zero visible dash length and the
unblur overlay is inactive; at any frame at or past
`highlightStartFrame + totalHighlightFrames` every span is fully filled and
every path's visible dash length equals its full arc length. -/
theorem C7_theorem (ws : List WordBox) (cps sf leadIn len : ℚ) (f : ℤ) (i n : ℕ)
    (hpos : ∀ w ∈ ws, 0 < w.width ∧ 0 < w.height) (hsf0 : 0 < sf)
    (hf : highlightStartFrame leadIn + totalHighlightFrames ws cps ≤ f) (hi : i < n) :
    drawnWidths sf
      (distanceTraveled (highlightFrame 0 (highlightStartFrame leadIn))
        (totalHighlightFrames ws cps) (totalPixelWidth sf (clusterSpans ws)))
      (clusterSpans ws) 0 = [] ∧
    circleVisibleLength len
      (revealProgress (highlightFrame 0 (highlightStartFrame leadIn))
        (totalHighlightFrames ws cps)) i n = 0 ∧
    unblurIsActive 0 (highlightStartFrame leadIn) = false ∧
    drawnWidths sf
      (distanceTraveled (highlightFrame f (highlightStartFrame leadIn))
        (totalHighlightFrames ws cps) (totalPixelWidth sf (clusterSpans ws)))
      (clusterSpans ws) 0 = (clusterSpans ws).map (spanPixelWidth sf) ∧
    circleVisibleLength len
      (revealProgress (highlightFrame f (highlightStartFrame leadIn))
        (totalHighlightFrames ws cps)) i n = len := by
  have hth := thf_pos ws cps
  have h30 : 30 ≤ highlightStartFrame leadIn := hsf_ge leadIn
  have hz : highlightFrame 0 (highlightStartFrame leadIn) = 0 :=
    highlightFrame_of_le (by omega)
  have hfull : totalHighlightFrames ws cps ≤ highlightFrame f (highlightStartFrame leadIn) := by
    unfold highlightFrame
    omega
  have hp1 : revealProgress (highlightFrame f (highlightStartFrame leadIn))
      (totalHighlightFrames ws cps) = 1 := revealProgress_of_le hth hfull
  have hwpos : ∀ s ∈ clusterSpans ws, 0 < spanPixelWidth sf s := by
    intro s hs
    obtain ⟨h1, h2⟩ := clusterSpans_nondegenerate ws hpos s hs
    exact spanPixelWidth_pos hsf0 h1 h2
  refine ⟨?_, ?_, ?_, ?_, ?_⟩
  · rw [hz]
    unfold distanceTraveled
    rw [revealProgress_zero, zero_mul]
    exact drawnWidths_of_nonpos sf _ (le_refl 0)
  · rw [hz, revealProgress_zero]
    exact circleVisibleLength_at_zero len i n
  · have hn : ¬ (highlightStartFrame leadIn ≤ 0) := by omega
    simp [unblurIsActive, hn]
  · unfold distanceTraveled
    rw [hp1, one_mul]
    have := drawnWidths_full sf (clusterSpans ws) 0 hwpos
    rw [zero_add] at this
    exact this
  · rw [hp1]
    exact circleVisibleLength_at_one len hi

/-- C7 witness: for the empty selection at `leadInSeconds = 0` the reveal is
empty at frame 0 and complete at frame 60. -/
theorem C7_witness :
    (∀ w ∈ ([] : List WordBox), 0 < w.width ∧ 0 < w.height) ∧ (0 : ℚ) < 1 ∧
    highlightStartFrame 0 + totalHighlightFrames [] 15 ≤ 60 ∧ 0 < 1 ∧
    (drawnWidths 1
      (distanceTraveled (highlightFrame 0 (highlightStartFrame 0))
        (totalHighlightFrames [] 15) (totalPixelWidth 1 (clusterSpans [])))
      (clusterSpans []) 0 = [] ∧
    circleVisibleLength 7
      (revealProgress (highlightFrame 0 (highlightStartFrame 0))
        (totalHighlightFrames [] 15)) 0 1 = 0 ∧
    unblurIsActive 0 (highlightStartFrame 0) = false ∧
    drawnWidths 1
      (distanceTraveled (highlightFrame 60 (highlightStartFrame 0))
        (totalHighlightFrames [] 15) (totalPixelWidth 1 (clusterSpans [])))
      (clusterSpans []) 0 = (clusterSpans []).map (spanPixelWidth 1) ∧
    circleVisibleLength 7
      (revealProgress (highlightFrame 60 (highlightStartFrame 0))
        (totalHighlightFrames [] 15)) 0 1 = 7) :=
  ⟨by simp, by norm_num,
    by norm_num [highlightStartFrame, leadInFramesComposition, jsRound,
      totalHighlightFrames, totalCharacters],
    by norm_num,
    C7_theorem [] 15 1 0 7 60 0 1 (by simp) (by norm_num)
      (by norm_num [highlightStartFrame, leadInFramesComposition, jsRound,
        totalHighlightFrames, totalCharacters]) (by norm_num)⟩

/-!  Shared corollaries of the interpolation bounds, used for C8. -/

lemma interpR_mem (lo hi : ℚ) {x a b y0 y1 : ℚ} {e : ℚ → ℚ}
    (hab : a < b) (hx : a ≤ x)
    (he : ∀ t, 0 ≤ t → t ≤ 1 → 0 ≤ e t ∧ e t ≤ 1)
    (hlo : lo ≤ min y0 y1) (hhi : max y0 y1 ≤ hi) :
    lo ≤ interpolate1 x a b y0 y1 e false true ∧
      interpolate1 x a b y0 y1 e false true ≤ hi := by
  obtain ⟨h1, h2⟩ := interpolate1_bounds_right hab hx he
  exact ⟨le_trans hlo h1, le_trans h2 hhi⟩

lemma interpL_mem (lo hi : ℚ) {x a b y0 y1 : ℚ} {e : ℚ → ℚ}
    (hab : a < b) (hx : x ≤ b)
    (he : ∀ t, 0 ≤ t → t ≤ 1 → 0 ≤ e t ∧ e t ≤ 1)
    (hlo : lo ≤ min y0 y1) (hhi : max y0 y1 ≤ hi) :
    lo ≤ interpolate1 x a b y0 y1 e true false ∧
      interpolate1 x a b y0 y1 e true false ≤ hi := by
  obtain ⟨h1, h2⟩ := interpolate1_bounds_left hab hx he
  exact ⟨le_trans hlo h1, le_trans h2 hhi⟩

lemma interpR_abs_le (B : ℚ) {x a b y0 y1 : ℚ} {e : ℚ → ℚ}
    (hab : a < b) (hx : a ≤ x)
    (he : ∀ t, 0 ≤ t → t ≤ 1 → 0 ≤ e t ∧ e t ≤ 1)
    (hlo : -B ≤ min y0 y1) (hhi : max y0 y1 ≤ B) :
    |interpolate1 x a b y0 y1 e false true| ≤ B :=
  abs_le.mpr (interpR_mem (-B) B hab hx he hlo hhi)

lemma interpL_abs_le (B : ℚ) {x a b y0 y1 : ℚ} {e : ℚ → ℚ}
    (hab : a < b) (hx : x ≤ b)
    (he : ∀ t, 0 ≤ t → t ≤ 1 → 0 ≤ e t ∧ e t ≤ 1)
    (hlo : -B ≤ min y0 y1) (hhi : max y0 y1 ≤ B) :
    |interpolate1 x a b y0 y1 e true false| ≤ B :=
  abs_le.mpr (interpL_mem (-B) B hab hx he hlo hhi)

/-- C8 (counterexample): a directional slide exit during the 15-frame safety
buffer extrapolates past its keyframe range — at frame 149 of a 150-frame
clip with a `to-bottom` exit, the exit translation is `21296/45 ≈ 473 px`
(far beyond the 150 px slide distance) and the exit opacity is negative. -/
theorem C8_counterexample :
    (0 : ℚ) ≤ 149 ∧ (149 : ℚ) < 150 ∧
    150 < (calculateExitAnimation ExitAnimation.toBottom 149 150).ty ∧
    (calculateExitAnimation ExitAnimation.toBottom 149 150).opacity < 0 := by
  have hb : exitBufferOf ExitAnimation.toBottom = 15 := rfl
  refine ⟨by norm_num, by norm_num, ?_, ?_⟩ <;>
    norm_num [calculateExitAnimation, hb, interpolate1, easeInCubic]

/-- C8 (amended): for every frame in `[0, durationInFrames)` and every
enter/exit/camera configuration, the summed blur is never negative, the
enter translation magnitudes never exceed 150 px and the enter opacity stays
in `[0,1]`, and the camera rotation/scale stay within their start/end
keyframe values; the corresponding exit bounds (and the composed opacity
staying in `[0,1]`) hold for frames up to the end of the exit window — past
it, during the slide exits' 15-frame safety buffer, the exit values
extrapolate beyond their keyframe range. -/
theorem C8_theorem (ea : EnterAnimation) (xa : ExitAnimation) (cm : CameraMovement)
    (f dur : ℚ) (h0 : 0 ≤ f) (hd : f < dur) :
    0 ≤ (calculateEnterAnimation ea f).blur + (calculateExitAnimation xa f dur).blur ∧
    (|(calculateEnterAnimation ea f).tx| ≤ 150 ∧ |(calculateEnterAnimation ea f).ty| ≤ 150 ∧
      0 ≤ (calculateEnterAnimation ea f).opacity ∧ (calculateEnterAnimation ea f).opacity ≤ 1) ∧
    (f ≤ exitEndOf xa dur →
      |(calculateExitAnimation xa f dur).tx| ≤ 150 ∧
      |(calculateExitAnimation xa f dur).ty| ≤ 150 ∧
      0 ≤ (calculateExitAnimation xa f dur).opacity ∧
      (calculateExitAnimation xa f dur).opacity ≤ 1 ∧
      0 ≤ min (calculateEnterAnimation ea f).opacity (calculateExitAnimation xa f dur).opacity ∧
      min (calculateEnterAnimation ea f).opacity (calculateExitAnimation xa f dur).opacity ≤ 1) ∧
    (|(calculateCameraTransform cm f dur).rotateX| ≤ 15 / 2 ∧
      |(calculateCameraTransform cm f dur).rotateY| ≤ 15 / 2 ∧
      camScaleLo cm ≤ (calculateCameraTransform cm f dur).scale ∧
      (calculateCameraTransform cm f dur).scale ≤ camScaleHi cm) := by
  have heOut : ∀ t : ℚ, 0 ≤ t → t ≤ 1 → 0 ≤ easeOutCubic t ∧ easeOutCubic t ≤ 1 :=
    fun _ a b => easeOutCubic_mem a b
  have heIn : ∀ t : ℚ, 0 ≤ t → t ≤ 1 → 0 ≤ easeInCubic t ∧ easeInCubic t ≤ 1 :=
    fun _ a b => easeInCubic_mem a b
  have heLin : ∀ t : ℚ, 0 ≤ t → t ≤ 1 → 0 ≤ easeLinear t ∧ easeLinear t ≤ 1 :=
    fun _ a b => easeLinear_mem a b
  have h30 : (0 : ℚ) < 30 := by norm_num
  have hdur : (0 : ℚ) < dur := lt_of_le_of_lt h0 hd
  have henter : 0 ≤ (calculateEnterAnimation ea f).blur ∧
      |(calculateEnterAnimation ea f).tx| ≤ 150 ∧
      |(calculateEnterAnimation ea f).ty| ≤ 150 ∧
      0 ≤ (calculateEnterAnimation ea f).opacity ∧
      (calculateEnterAnimation ea f).opacity ≤ 1 := by
    cases ea with
    | blur =>
        simp only [calculateEnterAnimation]
        refine ⟨(interpR_mem 0 20 h30 h0 heOut (by norm_num) (by norm_num)).1,
          by norm_num, by norm_num, by norm_num, by norm_num⟩
    | fromBottom =>
        simp only [calculateEnterAnimation]
        exact ⟨le_refl 0, by norm_num,
          interpR_abs_le 150 h30 h0 heOut (by norm_num) (by norm_num),
          (interpR_mem 0 1 h30 h0 heOut (by norm_num) (by norm_num)).1,
          (interpR_mem 0 1 h30 h0 heOut (by norm_num) (by norm_num)).2⟩
    | fromTop =>
        simp only [calculateEnterAnimation]
        exact ⟨le_refl 0, by norm_num,
          interpR_abs_le 150 h30 h0 heOut (by norm_num) (by norm_num),
          (interpR_mem 0 1 h30 h0 heOut (by norm_num) (by norm_num)).1,
          (interpR_mem 0 1 h30 h0 heOut (by norm_num) (by norm_num)).2⟩
    | fromLeft =>
        simp only [calculateEnterAnimation]
        exact ⟨le_refl 0,
          interpR_abs_le 150 h30 h0 heOut (by norm_num) (by norm_num), by norm_num,
          (interpR_mem 0 1 h30 h0 heOut (by norm_num) (by norm_num)).1,
          (interpR_mem 0 1 h30 h0 heOut (by norm_num) (by norm_num)).2⟩
    | fromRight =>
        simp only [calculateEnterAnimation]
        exact ⟨le_refl 0,
          interpR_abs_le 150 h30 h0 heOut (by norm_num) (by norm_num), by norm_num,
          (interpR_mem 0 1 h30 h0 heOut (by norm_num) (by norm_num)).1,
          (interpR_mem 0 1 h30 h0 heOut (by norm_num) (by norm_num)).2⟩
    | noneE =>
        simp only [calculateEnterAnimation]
        exact ⟨le_refl 0, by norm_num, by norm_num, by norm_num, by norm_num⟩
  have hexitblur : 0 ≤ (calculateExitAnimation xa f dur).blur := by
    cases xa with
    | blur =>
        simp only [calculateExitAnimation]
        have hx : f ≤ dur - exitBufferOf ExitAnimation.blur := by
          rw [show exitBufferOf ExitAnimation.blur = 0 from rfl]
          linarith
        exact (interpL_mem 0 20 (by linarith) hx heIn (by norm_num) (by norm_num)).1
    | toBottom => exact le_refl 0
    | toTop => exact le_refl 0
    | toLeft => exact le_refl 0
    | toRight => exact le_refl 0
    | noneX => exact le_refl 0
  have hexit : f ≤ exitEndOf xa dur →
      |(calculateExitAnimation xa f dur).tx| ≤ 150 ∧
      |(calculateExitAnimation xa f dur).ty| ≤ 150 ∧
      0 ≤ (calculateExitAnimation xa f dur).opacity ∧
      (calculateExitAnimation xa f dur).opacity ≤ 1 := by
    intro hfe
    rw [exitEndOf] at hfe
    cases xa with
    | blur =>
        simp only [calculateExitAnimation]
        exact ⟨by norm_num, by norm_num, by norm_num, by norm_num⟩
    | toBottom =>
        simp only [calculateExitAnimation]
        exact ⟨by norm_num,
          interpL_abs_le 150 (by linarith) hfe heIn (by norm_num) (by norm_num),
          (interpL_mem 0 1 (by linarith) hfe heIn (by norm_num) (by norm_num)).1,
          (interpL_mem 0 1 (by linarith) hfe heIn (by norm_num) (by norm_num)).2⟩
    | toTop =>
        simp only [calculateExitAnimation]
        exact ⟨by norm_num,
          interpL_abs_le 150 (by linarith) hfe heIn (by norm_num) (by norm_num),
          (interpL_mem 0 1 (by linarith) hfe heIn (by norm_num) (by norm_num)).1,
          (interpL_mem 0 1 (by linarith) hfe heIn (by norm_num) (by norm_num)).2⟩
    | toLeft =>
        simp only [calculateExitAnimation]
        exact ⟨interpL_abs_le 150 (by linarith) hfe heIn (by norm_num) (by norm_num),
          by norm_num,
          (interpL_mem 0 1 (by linarith) hfe heIn (by norm_num) (by norm_num)).1,
          (interpL_mem 0 1 (by linarith) hfe heIn (by norm_num) (by norm_num)).2⟩
    | toRight =>
        simp only [calculateExitAnimation]
        exact ⟨interpL_abs_le 150 (by linarith) hfe heIn (by norm_num) (by norm_num),
          by norm_num,
          (interpL_mem 0 1 (by linarith) hfe heIn (by norm_num) (by norm_num)).1,
          (interpL_mem 0 1 (by linarith) hfe heIn (by norm_num) (by norm_num)).2⟩
    | noneX =>
        simp only [calculateExitAnimation]
        exact ⟨by norm_num, by norm_num, by norm_num, by norm_num⟩
  have hcam : |(calculateCameraTransform cm f dur).rotateX| ≤ 15 / 2 ∧
      |(calculateCameraTransform cm f dur).rotateY| ≤ 15 / 2 ∧
      camScaleLo cm ≤ (calculateCameraTransform cm f dur).scale ∧
      (calculateCameraTransform cm f dur).scale ≤ camScaleHi cm := by
    cases cm with
    | leftRight =>
        simp only [calculateCameraTransform, camScaleLo, camScaleHi]
        exact ⟨by norm_num, interpR_abs_le (15 / 2) hdur h0 heLin (by norm_num) (by norm_num),
          (interpR_mem 1 (21 / 20) hdur h0 heLin (by norm_num) (by norm_num)).1,
          (interpR_mem 1 (21 / 20) hdur h0 heLin (by norm_num) (by norm_num)).2⟩
    | rightLeft =>
        simp only [calculateCameraTransform, camScaleLo, camScaleHi]
        exact ⟨by norm_num, interpR_abs_le (15 / 2) hdur h0 heLin (by norm_num) (by norm_num),
          (interpR_mem 1 (21 / 20) hdur h0 heLin (by norm_num) (by norm_num)).1,
          (interpR_mem 1 (21 / 20) hdur h0 heLin (by norm_num) (by norm_num)).2⟩
    | upDown =>
        simp only [calculateCameraTransform, camScaleLo, camScaleHi]
        exact ⟨interpR_abs_le (15 / 2) hdur h0 heLin (by norm_num) (by norm_num), by norm_num,
          (interpR_mem 1 (21 / 20) hdur h0 heLin (by norm_num) (by norm_num)).1,
          (interpR_mem 1 (21 / 20) hdur h0 heLin (by norm_num) (by norm_num)).2⟩
    | downUp =>
        simp only [calculateCameraTransform, camScaleLo, camScaleHi]
        exact ⟨interpR_abs_le (15 / 2) hdur h0 heLin (by norm_num) (by norm_num), by norm_num,
          (interpR_mem 1 (21 / 20) hdur h0 heLin (by norm_num) (by norm_num)).1,
          (interpR_mem 1 (21 / 20) hdur h0 heLin (by norm_num) (by norm_num)).2⟩
    | zoomIn =>
        simp only [calculateCameraTransform, camScaleLo, camScaleHi]
        exact ⟨by norm_num, by norm_num,
          (interpR_mem 1 (23 / 20) hdur h0 heLin (by norm_num) (by norm_num)).1,
          (interpR_mem 1 (23 / 20) hdur h0 heLin (by norm_num) (by norm_num)).2⟩
    | zoomOut =>
        simp only [calculateCameraTransform, camScaleLo, camScaleHi]
        exact ⟨by norm_num, by norm_num,
          (interpR_mem 1 (23 / 20) hdur h0 heLin (by norm_num) (by norm_num)).1,
          (interpR_mem 1 (23 / 20) hdur h0 heLin (by norm_num) (by norm_num)).2⟩
    | noneC =>
        simp only [calculateCameraTransform, camScaleLo, camScaleHi]
        exact ⟨by norm_num, by norm_num, le_refl 1, le_refl 1⟩
  refine ⟨add_nonneg henter.1 hexitblur, henter.2, ?_, hcam⟩
  intro hfe
  obtain ⟨e1, e2, e3, e4⟩ := hexit hfe
  exact ⟨e1, e2, e3, e4, le_min henter.2.2.2.1 e3,
    le_trans (min_le_left _ _) henter.2.2.2.2⟩

/-- C8 witness: the amended bounds at a concrete configuration (blur enter
and exit, left-right camera, frame 10 of 100). -/
theorem C8_witness :
    (0 : ℚ) ≤ 10 ∧ (10 : ℚ) < 100 ∧
    (0 ≤ (calculateEnterAnimation EnterAnimation.blur 10).blur +
        (calculateExitAnimation ExitAnimation.blur 10 100).blur ∧
    (|(calculateEnterAnimation EnterAnimation.blur 10).tx| ≤ 150 ∧
      |(calculateEnterAnimation EnterAnimation.blur 10).ty| ≤ 150 ∧
      0 ≤ (calculateEnterAnimation EnterAnimation.blur 10).opacity ∧
      (calculateEnterAnimation EnterAnimation.blur 10).opacity ≤ 1) ∧
    ((10 : ℚ) ≤ exitEndOf ExitAnimation.blur 100 →
      |(calculateExitAnimation ExitAnimation.blur 10 100).tx| ≤ 150 ∧
      |(calculateExitAnimation ExitAnimation.blur 10 100).ty| ≤ 150 ∧
      0 ≤ (calculateExitAnimation ExitAnimation.blur 10 100).opacity ∧
      (calculateExitAnimation ExitAnimation.blur 10 100).opacity ≤ 1 ∧
      0 ≤ min (calculateEnterAnimation EnterAnimation.blur 10).opacity
          (calculateExitAnimation ExitAnimation.blur 10 100).opacity ∧
      min (calculateEnterAnimation EnterAnimation.blur 10).opacity
          (calculateExitAnimation ExitAnimation.blur 10 100).opacity ≤ 1) ∧
    (|(calculateCameraTransform CameraMovement.leftRight 10 100).rotateX| ≤ 15 / 2 ∧
      |(calculateCameraTransform CameraMovement.leftRight 10 100).rotateY| ≤ 15 / 2 ∧
      camScaleLo CameraMovement.leftRight ≤
        (calculateCameraTransform CameraMovement.leftRight 10 100).scale ∧
      (calculateCameraTransform CameraMovement.leftRight 10 100).scale ≤
        camScaleHi CameraMovement.leftRight)) :=
  ⟨by norm_num, by norm_num,
    C8_theorem EnterAnimation.blur ExitAnimation.blur CameraMovement.leftRight 10 100
      (by norm_num) (by norm_num)⟩

end BRoll
